import Mathlib

/-!
# Verification of the recurring reminder/notification scheduling engine

This development shallowly embeds the scheduling core of the ManageTime
backend (`src/services/queueService.ts` and
`src/services/notificationScheduler.ts`) and proves or refutes the frozen
claims about it.

Modelling conventions:
* absolute instants are `Int` milliseconds since the Unix epoch (the value of
  `Date.prototype.getTime`);
* the server's local timezone is a fixed offset `off` in milliseconds east of
  UTC (JavaScript `Date` mutators such as `setHours`/`setDate`/`setMonth`
  operate in the server's local zone);
* the proleptic Gregorian calendar used by JavaScript `Date` is modelled by
  `daysFromCivil` / `civilFromDays`, with `daysFromCivil` linear in the day
  argument and normalising the month argument, which reproduces JavaScript's
  rollover behaviour for out-of-range `setDate`/`setMonth` arguments;
* fallible operations return `Option`/`Except`; queue side effects are
  modelled as explicit lists of job requests.
-/

namespace ManageTime

/-- Milliseconds in one minute. -/
def msMin : Int := 60000

/-- Milliseconds in one hour. -/
def msHour : Int := 3600000

/-- Milliseconds in one day. -/
def msDay : Int := 86400000

/-- Milliseconds in one week. -/
def msWeek : Int := 604800000

/-! ## Proleptic Gregorian calendar -/

/-- Gregorian leap-year test. -/
def isLeap (y : Int) : Bool :=
  (y % 4 == 0 && y % 100 != 0) || y % 400 == 0

/-- Number of days in month `m` (1..12) of year `y`. -/
def daysInMonth (y m : Int) : Int :=
  if m = 1 then 31 else if m = 2 then (if isLeap y then 29 else 28)
  else if m = 3 then 31 else if m = 4 then 30 else if m = 5 then 31
  else if m = 6 then 30 else if m = 7 then 31 else if m = 8 then 31
  else if m = 9 then 30 else if m = 10 then 31 else if m = 11 then 30
  else if m = 12 then 31 else 0

/-- Number of days in year `y`. -/
def daysInYear (y : Int) : Int := if isLeap y then 366 else 365

/-- Days in the months of year `y` strictly before month `m` (for `m` in 1..13). -/
def cumMonthDays (y m : Int) : Int :=
  (if m = 1 then 0 else if m = 2 then 31 else if m = 3 then 59
   else if m = 4 then 90 else if m = 5 then 120 else if m = 6 then 151
   else if m = 7 then 181 else if m = 8 then 212 else if m = 9 then 243
   else if m = 10 then 273 else if m = 11 then 304 else if m = 12 then 334
   else if m = 13 then 365 else 0)
  + (if 3 ≤ m ∧ isLeap y then 1 else 0)

/-- Number of Gregorian leap years `z` with `z < y` and `z ≥` a fixed base
(the base cancels in all differences we use). -/
def leapCount (y : Int) : Int :=
  (y - 1) / 4 - (y - 1) / 100 + (y - 1) / 400

/-- Day number (days since 1970-01-01) of January 1st of year `y`. -/
def yearStartDays (y : Int) : Int :=
  365 * (y - 1970) + (leapCount y - leapCount 1970)

/-- Year component after normalising month `m` into 1..12. -/
def normYMyear (y m : Int) : Int := y + (m - 1) / 12

/-- Month component after normalising month `m` into 1..12. -/
def normYMmonth (m : Int) : Int := (m - 1) % 12 + 1

/-- Day number of the civil date `(y, m, d)`.  The month is normalised and the
day argument is linear, which reproduces JavaScript `Date` rollover for
out-of-range months and days. -/
def daysFromCivil (y m d : Int) : Int :=
  yearStartDays (normYMyear y m) + cumMonthDays (normYMyear y m) (normYMmonth m) + (d - 1)

/-- A civil (local) calendar date. -/
structure Civil where
  year : Int
  month : Int
  day : Int
deriving Repr, DecidableEq

/-- Scan forward at most `fuel` years from year `y` to locate the year
containing day-of-era offset `r`. Returns the year and the day of year. -/
def findYear : Nat → Int → Int → Int × Int
  | 0, y, r => (y, r)
  | Nat.succ fuel, y, r =>
    if r < daysInYear y then (y, r) else findYear fuel (y + 1) (r - daysInYear y)

/-- Scan forward at most `fuel` months from month `m` of year `y` to locate the
month containing day-of-year offset `r`. Returns the month and day offset. -/
def findMonth : Nat → Int → Int → Int → Int × Int
  | 0, m, _, r => (m, r)
  | Nat.succ fuel, m, y, r =>
    if r < daysInMonth y m then (m, r) else findMonth fuel (m + 1) y (r - daysInMonth y m)

/-- 400-year era index used by `civilFromDays`. -/
def cfdEra (z : Int) : Int := (z - yearStartDays 0) / 146097

/-- Year and day-of-year of a day number. -/
def cfdYear (z : Int) : Int × Int :=
  findYear 400 (400 * cfdEra z) (z - yearStartDays (400 * cfdEra z))

/-- Month and day-of-month offset of a day number. -/
def cfdMonth (z : Int) : Int × Int :=
  findMonth 12 1 (cfdYear z).1 (cfdYear z).2

/-- Civil date of a day number (inverse of `daysFromCivil` on valid dates). -/
def civilFromDays (z : Int) : Civil :=
  ⟨(cfdYear z).1, (cfdMonth z).1, (cfdMonth z).2 + 1⟩

/-! ## Calendar correctness lemmas -/

theorem isLeap_iff (y : Int) :
    isLeap y = true ↔ (y % 4 = 0 ∧ y % 100 ≠ 0) ∨ y % 400 = 0 := by
  simp [isLeap, Bool.or_eq_true, Bool.and_eq_true]

theorem yearStart_succ (y : Int) :
    yearStartDays (y + 1) = yearStartDays y + daysInYear y := by
  unfold yearStartDays leapCount daysInYear
  by_cases hl : isLeap y = true
  · rw [if_pos hl]
    have h := (isLeap_iff y).mp hl
    omega
  · rw [if_neg hl]
    have h : ¬((y % 4 = 0 ∧ y % 100 ≠ 0) ∨ y % 400 = 0) :=
      fun hc => hl ((isLeap_iff y).mpr hc)
    omega

theorem daysInYear_bounds (y : Int) : 365 ≤ daysInYear y ∧ daysInYear y ≤ 366 := by
  unfold daysInYear; split <;> omega

theorem yearStart_mul400 (e : Int) :
    yearStartDays (400 * e) = yearStartDays 0 + 146097 * e := by
  unfold yearStartDays leapCount
  omega

theorem daysInMonth_bounds (y m : Int) (h1 : 1 ≤ m) (h2 : m ≤ 12) :
    28 ≤ daysInMonth y m ∧ daysInMonth y m ≤ 31 := by
  interval_cases m <;> norm_num [daysInMonth] <;> split_ifs <;> omega

theorem cumMonthDays_one (y : Int) : cumMonthDays y 1 = 0 := by
  norm_num [cumMonthDays]

theorem cumMonthDays_thirteen (y : Int) : cumMonthDays y 13 = daysInYear y := by
  norm_num [cumMonthDays, daysInYear]; split_ifs <;> omega

theorem cumMonthDays_succ (y m : Int) (h1 : 1 ≤ m) (h2 : m ≤ 12) :
    cumMonthDays y (m + 1) = cumMonthDays y m + daysInMonth y m := by
  interval_cases m <;> norm_num [cumMonthDays, daysInMonth] <;> split_ifs <;> omega

theorem yearStart_mono {a b : Int} (h : a ≤ b) : yearStartDays a ≤ yearStartDays b := by
  refine Int.le_induction (P := fun b => yearStartDays a ≤ yearStartDays b) ?_ ?_ b h
  · exact le_refl _
  · intro n _ ih
    have hs := yearStart_succ n
    have hb := daysInYear_bounds n
    omega

theorem cumMonthDays_mono {y a b : Int} (h1 : 1 ≤ a) (h : a ≤ b) (h2 : b ≤ 13) :
    cumMonthDays y a ≤ cumMonthDays y b := by
  have main : ∀ b, a ≤ b → b ≤ 13 → cumMonthDays y a ≤ cumMonthDays y b := by
    intro b hb
    refine Int.le_induction
      (P := fun b => b ≤ 13 → cumMonthDays y a ≤ cumMonthDays y b) ?_ ?_ b hb
    · intro _; exact le_refl _
    · intro n hn ih h13
      have hs := cumMonthDays_succ y n (by omega) (by omega)
      have hdm := daysInMonth_bounds y n (by omega) (by omega)
      have := ih (by omega)
      omega
  exact main b h h2

theorem findYear_spec (fuel : Nat) (y r z : Int) (hr : 0 ≤ r)
    (hz : z = yearStartDays y + r)
    (hb : r < yearStartDays (y + (fuel : Int)) - yearStartDays y) :
    yearStartDays (findYear fuel y r).1 + (findYear fuel y r).2 = z ∧
    0 ≤ (findYear fuel y r).2 ∧
    (findYear fuel y r).2 < daysInYear (findYear fuel y r).1 := by
  induction fuel generalizing y r with
  | zero =>
    rw [Nat.cast_zero, add_zero] at hb
    omega
  | succ fuel ih =>
    rw [findYear]
    split
    · exact ⟨show yearStartDays y + r = z by omega, hr,
        show r < daysInYear y by assumption⟩
    · have hsu := yearStart_succ y
      have hcast : y + ((fuel + 1 : Nat) : Int) = y + 1 + (fuel : Int) := by
        push_cast; ring
      rw [hcast] at hb
      exact ih (y + 1) (r - daysInYear y) (by omega) (by omega) (by omega)

theorem findMonth_spec (fuel : Nat) (m y r : Int) (h1 : 1 ≤ m) (hr : 0 ≤ r)
    (hb : r < cumMonthDays y (m + (fuel : Int)) - cumMonthDays y m)
    (hf : m + (fuel : Int) ≤ 13) :
    cumMonthDays y (findMonth fuel m y r).1 + (findMonth fuel m y r).2 =
      cumMonthDays y m + r ∧
    0 ≤ (findMonth fuel m y r).2 ∧
    (findMonth fuel m y r).2 < daysInMonth y (findMonth fuel m y r).1 ∧
    1 ≤ (findMonth fuel m y r).1 ∧ (findMonth fuel m y r).1 ≤ 12 := by
  induction fuel generalizing m r with
  | zero =>
    rw [Nat.cast_zero, add_zero] at hb
    omega
  | succ fuel ih =>
    rw [findMonth]
    have hcast : m + ((fuel + 1 : Nat) : Int) = m + 1 + (fuel : Int) := by
      push_cast; ring
    rw [hcast] at hb hf
    split
    · refine ⟨show cumMonthDays y m + r = cumMonthDays y m + r by omega, hr,
        show r < daysInMonth y m by assumption, h1, ?_⟩
      show m ≤ 12
      have hfnat : (0 : Int) ≤ (fuel : Int) := by positivity
      omega
    · have hsu := cumMonthDays_succ y m h1 ?_
      · have := ih (m + 1) (r - daysInMonth y m) (by omega) (by omega) (by omega)
        omega
      · have hfnat : (0 : Int) ≤ (fuel : Int) := by positivity
        omega

theorem normYMyear_id (y m : Int) (h1 : 1 ≤ m) (h2 : m ≤ 12) : normYMyear y m = y := by
  unfold normYMyear; omega

theorem normYMmonth_id (m : Int) (h1 : 1 ≤ m) (h2 : m ≤ 12) : normYMmonth m = m := by
  unfold normYMmonth; omega

theorem normYMyear_13 (y : Int) : normYMyear y 13 = y + 1 := by
  unfold normYMyear; omega

theorem normYMmonth_13 : normYMmonth 13 = 1 := by
  unfold normYMmonth; omega

theorem daysFromCivil_linear (y m d d' : Int) :
    daysFromCivil y m d' = daysFromCivil y m d + (d' - d) := by
  unfold daysFromCivil; ring

theorem cfdYear_spec (z : Int) :
    yearStartDays (cfdYear z).1 + (cfdYear z).2 = z ∧
    0 ≤ (cfdYear z).2 ∧ (cfdYear z).2 < daysInYear (cfdYear z).1 := by
  have h400 : yearStartDays (400 * cfdEra z) = yearStartDays 0 + 146097 * cfdEra z :=
    yearStart_mul400 _
  have h400' : yearStartDays (400 * cfdEra z + 400) =
      yearStartDays 0 + 146097 * (cfdEra z + 1) := by
    have he : 400 * cfdEra z + 400 = 400 * (cfdEra z + 1) := by ring
    rw [he, yearStart_mul400]
  have hera : 0 ≤ z - yearStartDays (400 * cfdEra z) ∧
      z - yearStartDays (400 * cfdEra z) < 146097 := by
    unfold cfdEra at h400 ⊢
    omega
  have hcast : 400 * cfdEra z + ((400 : Nat) : Int) = 400 * cfdEra z + 400 := by norm_num
  unfold cfdYear
  exact findYear_spec 400 (400 * cfdEra z) (z - yearStartDays (400 * cfdEra z)) z
    hera.1 (by omega) (by rw [hcast]; omega)

theorem cfdMonth_spec (z : Int) :
    cumMonthDays (cfdYear z).1 (cfdMonth z).1 + (cfdMonth z).2 = (cfdYear z).2 ∧
    0 ≤ (cfdMonth z).2 ∧
    (cfdMonth z).2 < daysInMonth (cfdYear z).1 (cfdMonth z).1 ∧
    1 ≤ (cfdMonth z).1 ∧ (cfdMonth z).1 ≤ 12 := by
  have hy := cfdYear_spec z
  have h13 := cumMonthDays_thirteen (cfdYear z).1
  have h1 := cumMonthDays_one (cfdYear z).1
  have hcast : (1 : Int) + ((12 : Nat) : Int) = 13 := by norm_num
  have hs := findMonth_spec 12 1 (cfdYear z).1 (cfdYear z).2 (by omega) hy.2.1
    (by rw [hcast]; omega) (by rw [hcast])
  unfold cfdMonth
  omega

theorem civilFromDays_valid (z : Int) :
    1 ≤ (civilFromDays z).month ∧ (civilFromDays z).month ≤ 12 ∧
    1 ≤ (civilFromDays z).day ∧
    (civilFromDays z).day ≤ daysInMonth (civilFromDays z).year (civilFromDays z).month := by
  have hm := cfdMonth_spec z
  exact ⟨hm.2.2.2.1, hm.2.2.2.2,
    show 1 ≤ (cfdMonth z).2 + 1 by omega,
    show (cfdMonth z).2 + 1 ≤ daysInMonth (cfdYear z).1 (cfdMonth z).1 by omega⟩

theorem daysFromCivil_civilFromDays (z : Int) :
    daysFromCivil (civilFromDays z).year (civilFromDays z).month (civilFromDays z).day = z := by
  have hy := cfdYear_spec z
  have hm := cfdMonth_spec z
  have h1 := cumMonthDays_one (cfdYear z).1
  show daysFromCivil (cfdYear z).1 (cfdMonth z).1 ((cfdMonth z).2 + 1) = z
  unfold daysFromCivil
  rw [normYMyear_id _ _ hm.2.2.2.1 hm.2.2.2.2, normYMmonth_id _ hm.2.2.2.1 hm.2.2.2.2]
  omega

theorem daysFromCivil_bounds (y m d : Int) (h1 : 1 ≤ m) (h2 : m ≤ 12)
    (h3 : 1 ≤ d) (h4 : d ≤ daysInMonth y m) :
    yearStartDays y ≤ daysFromCivil y m d ∧
    daysFromCivil y m d < yearStartDays (y + 1) := by
  have hys := yearStart_succ y
  have hcl := cumMonthDays_one y
  have hcm : cumMonthDays y 1 ≤ cumMonthDays y m := cumMonthDays_mono le_rfl h1 (by omega)
  have hcs := cumMonthDays_succ y m h1 h2
  have hcm' : cumMonthDays y (m + 1) ≤ cumMonthDays y 13 :=
    cumMonthDays_mono (by omega) (by omega) le_rfl
  have h13 := cumMonthDays_thirteen y
  unfold daysFromCivil
  rw [normYMyear_id _ _ h1 h2, normYMmonth_id _ h1 h2]
  omega

theorem civilFromDays_daysFromCivil (y m d : Int) (h1 : 1 ≤ m) (h2 : m ≤ 12)
    (h3 : 1 ≤ d) (h4 : d ≤ daysInMonth y m) :
    civilFromDays (daysFromCivil y m d) = ⟨y, m, d⟩ := by
  set z := daysFromCivil y m d with hz
  have hv := civilFromDays_valid z
  have hrt := daysFromCivil_civilFromDays z
  have hb1 := daysFromCivil_bounds y m d h1 h2 h3 h4
  have hb2 := daysFromCivil_bounds (civilFromDays z).year (civilFromDays z).month
    (civilFromDays z).day hv.1 hv.2.1 hv.2.2.1 hv.2.2.2
  rw [hrt] at hb2
  have hyear : (civilFromDays z).year = y := by
    by_contra hne
    rcases lt_or_gt_of_ne hne with hlt | hgt
    · have : (civilFromDays z).year + 1 ≤ y := by omega
      have := yearStart_mono this
      omega
    · have : y + 1 ≤ (civilFromDays z).year := by omega
      have := yearStart_mono this
      omega
  have hcum : cumMonthDays y (civilFromDays z).month + (civilFromDays z).day =
      cumMonthDays y m + d := by
    have hd1 : daysFromCivil (civilFromDays z).year (civilFromDays z).month
        (civilFromDays z).day = yearStartDays y +
        cumMonthDays y (civilFromDays z).month + ((civilFromDays z).day - 1) := by
      unfold daysFromCivil
      rw [normYMyear_id _ _ hv.1 hv.2.1, normYMmonth_id _ hv.1 hv.2.1, hyear]
    have hd2 : z = yearStartDays y + cumMonthDays y m + (d - 1) := by
      rw [hz]
      unfold daysFromCivil
      rw [normYMyear_id _ _ h1 h2, normYMmonth_id _ h1 h2]
    omega
  have hmonth : (civilFromDays z).month = m := by
    by_contra hne
    rcases lt_or_gt_of_ne hne with hlt | hgt
    · have hstep : cumMonthDays y ((civilFromDays z).month + 1) =
        cumMonthDays y (civilFromDays z).month +
          daysInMonth y (civilFromDays z).month :=
        cumMonthDays_succ y _ hv.1 hv.2.1
    
      have hmono : cumMonthDays y ((civilFromDays z).month + 1) ≤ cumMonthDays y m := by
        apply cumMonthDays_mono <;> omega
      have hvday := hv.2.2.2
      rw [hyear] at hvday
      omega
    · have hstep : cumMonthDays y (m + 1) = cumMonthDays y m + daysInMonth y m :=
        cumMonthDays_succ y m h1 h2
      have hmono : cumMonthDays y (m + 1) ≤ cumMonthDays y (civilFromDays z).month := by
        apply cumMonthDays_mono <;> omega
      omega
  have hday : (civilFromDays z).day = d := by
    rw [hmonth] at hcum
    omega
  have heta : civilFromDays z =
      ⟨(civilFromDays z).year, (civilFromDays z).month, (civilFromDays z).day⟩ := rfl
  rw [heta, hyear, hmonth, hday]

theorem daysFromCivil_add_month (y m d : Int) (h1 : 1 ≤ m) (h2 : m ≤ 12) :
    daysFromCivil y (m + 1) d = daysFromCivil y m d + daysInMonth y m := by
  rcases eq_or_lt_of_le h2 with h12 | h11
  · subst h12
    have h13a := normYMyear_13 y
    have h13b := normYMmonth_13
    unfold daysFromCivil
    rw [show (12 : Int) + 1 = 13 by norm_num, h13a, h13b,
      normYMyear_id _ _ (by omega) (by omega), normYMmonth_id _ (by omega) (by omega)]
    have hys := yearStart_succ y
    have h13 := cumMonthDays_thirteen y
    have hcs : cumMonthDays y 13 = cumMonthDays y 12 + daysInMonth y 12 := by
      have h := cumMonthDays_succ y 12 (by omega) le_rfl
      norm_num at h
      exact h
    have hc1 := cumMonthDays_one (y + 1)
    omega
  · unfold daysFromCivil
    rw [normYMyear_id _ _ (by omega : (1:Int) ≤ m + 1) (by omega),
      normYMmonth_id _ (by omega) (by omega),
      normYMyear_id _ _ h1 h2, normYMmonth_id _ h1 h2]
    have := cumMonthDays_succ y m h1 h2
    omega

/-! ## JavaScript `Date` operations

All mutators operate in the server's local zone, modelled as the fixed offset
`off` (milliseconds east of UTC). -/

/-- Local day number (days since epoch, server-local) of instant `t`. -/
def dayNumOf (t off : Int) : Int := (t + off) / msDay

/-- Local time of day in milliseconds of instant `t`. -/
def todOf (t off : Int) : Int := (t + off) % msDay

/-- JavaScript `d.setHours(h, m, 0, 0)` in server-local time. -/
def jsSetHours (t off h m : Int) : Int :=
  dayNumOf t off * msDay + h * msHour + m * msMin - off

/-- JavaScript `d.getDay()` (0 = Sunday); day 0 of the epoch was a Thursday. -/
def jsGetDay (t off : Int) : Int := (dayNumOf t off + 4) % 7

/-- JavaScript `d.setDate(d.getDate() + k)`: exact day arithmetic. -/
def jsAddDays (t k : Int) : Int := t + k * msDay

/-- Local civil date of instant `t`. -/
def jsCivil (t off : Int) : Civil := civilFromDays (dayNumOf t off)

/-- JavaScript `d.getFullYear()` in server-local time. -/
def jsGetFullYear (t off : Int) : Int := (jsCivil t off).year

/-- JavaScript `d.getMonth()` (0-based month index) in server-local time. -/
def jsGetMonth (t off : Int) : Int := (jsCivil t off).month - 1

/-- JavaScript `d.getDate()` (day of month) in server-local time. -/
def jsGetDate (t off : Int) : Int := (jsCivil t off).day

/-- JavaScript `d.setDate(v)`: set the local day of month (with rollover for
out-of-range `v`), keeping the time of day. -/
def jsSetDate (t off v : Int) : Int :=
  daysFromCivil (jsCivil t off).year (jsCivil t off).month v * msDay + todOf t off - off

/-- JavaScript `d.setMonth(v)` (0-based `v`): set the local month (with
rollover), keeping the day of month and time of day. -/
def jsSetMonth (t off v : Int) : Int :=
  daysFromCivil (jsCivil t off).year (v + 1) (jsCivil t off).day * msDay + todOf t off - off

/-- JavaScript `new Date(y, mIdx, d)` (0-based month index, with rollover) at
local midnight. -/
def jsMakeDate (off y mIdx d : Int) : Int :=
  daysFromCivil y (mIdx + 1) d * msDay - off

/-! ## String parsing (JavaScript `parseInt` / `Number` on the shapes used) -/

/-- Split a character list at every occurrence of `sep` (kernel-reducible
model of JavaScript `String.prototype.split` with a one-character separator). -/
def splitOnCharAux (sep : Char) : List Char → List Char → List (List Char)
  | [], acc => [acc.reverse]
  | c :: rest, acc =>
    if c = sep then acc.reverse :: splitOnCharAux sep rest []
    else splitOnCharAux sep rest (c :: acc)

/-- JavaScript `s.split(sep)` for a single-character separator. -/
def jsSplit (s : String) (sep : Char) : List String :=
  (splitOnCharAux sep s.toList []).map (fun cs => String.mk cs)

/-- JavaScript `s.startsWith(p)`. -/
def jsStartsWith (s p : String) : Bool := p.toList.isPrefixOf s.toList

/-- Value of a list of decimal digits. -/
def digitsToNat (cs : List Char) : Nat :=
  cs.foldl (fun acc c => acc * 10 + (c.toNat - 48)) 0

/-- Leading decimal digits of a character list. -/
def leadDigits (cs : List Char) : List Char := cs.takeWhile (fun c => c.isDigit)

/-- Model of JavaScript `parseInt(s, 10)`: skip spaces, optional sign, then
leading decimal digits; `none` models `NaN` (no digits). -/
def jsParseInt (s : String) : Option Int :=
  let cs := s.toList.dropWhile (fun c => c = ' ')
  match cs with
  | '-' :: rest =>
    if (leadDigits rest).isEmpty then none
    else some (-(digitsToNat (leadDigits rest) : Int))
  | '+' :: rest =>
    if (leadDigits rest).isEmpty then none
    else some ((digitsToNat (leadDigits rest) : Int))
  | _ =>
    if (leadDigits cs).isEmpty then none
    else some ((digitsToNat (leadDigits cs) : Int))

/-- `String(time).split(':')` with `parseInt` on the first two pieces and the
JavaScript `x || 0` fallback applied to each (`NaN`, `undefined` and `0` all
give `0`), exactly as in `computeNextOccurrence`. -/
def parseTimeParts (s : String) : Int × Int :=
  ((((jsSplit s ':').get? 0).bind jsParseInt).getD 0,
    (((jsSplit s ':').get? 1).bind jsParseInt).getD 0)

/-- Model of JavaScript `Number(s)` on the strings exercised here: the empty
string is `0`, a pure digit string is its value, anything else is `NaN`
(`none`). -/
def jsNumber (s : String) : Option Int :=
  if s = "" then some 0
  else if s.toList.all (fun c => c.isDigit) then some ((digitsToNat s.toList : Int))
  else none

/-! ## Schedule values and the occurrence calculator -/

/-- A stored schedule value as seen by `computeNextOccurrence`: either not an
object at all, or a JSON object with the scheduling fields (`none` models an
absent field).  The extension/bookkeeping fields are irrelevant to the
calculator and omitted. -/
inductive ScheduleVal where
  | notObject
  | obj (atField : Option String) (frequency : Option String) (time : Option String)
        (days : Option (List Int)) (day : Option Int) (timezone : Option String)
deriving Repr, DecidableEq

/-- JavaScript truthiness of a possibly-absent string field. -/
def strTruthy : Option String → Bool
  | none => false
  | some s => s ≠ ""

/-- JavaScript truthiness of a possibly-absent number field. -/
def intTruthy : Option Int → Bool
  | none => false
  | some n => n ≠ 0

/-- One step of the JavaScript `soonest` accumulation:
`if (!soonest || d < soonest) soonest = d`. -/
def jsMinStep (acc : Option Int) (d : Int) : Option Int :=
  match acc with
  | none => some d
  | some s => if d < s then some d else some s

/-- The JavaScript `soonest` accumulation loop over the candidate list. -/
def jsMinFold (cands : List Int) : Option Int :=
  cands.foldl jsMinStep none

/-- The DAILY branch of `computeNextOccurrence`: today at `hh:mm` server-local,
rolled to tomorrow when not strictly in the future. -/
def dailyNext (off now hh mm : Int) : Int :=
  if jsSetHours now off hh mm ≤ now then jsAddDays (jsSetHours now off hh mm) 1
  else jsSetHours now off hh mm

/-- The date candidate (before the past check) of one WEEKLY iteration:
`d.setDate(d.getDate() + delta); d.setHours(hh, mm, 0, 0)` with
`delta = (day - d.getDay() + 7) % 7` (JavaScript truncated `%`). -/
def weeklyRawCandidate (off now hh mm day : Int) : Int :=
  jsSetHours (jsAddDays now ((day - jsGetDay now off + 7).tmod 7)) off hh mm

/-- One WEEKLY candidate of `computeNextOccurrence` for weekday `day`
(`if (d <= now) d.setDate(d.getDate() + 7)`). -/
def weeklyCandidate (off now hh mm day : Int) : Int :=
  if weeklyRawCandidate off now hh mm day ≤ now
  then jsAddDays (weeklyRawCandidate off now hh mm day) 7
  else weeklyRawCandidate off now hh mm day

/-- The WEEKLY branch of `computeNextOccurrence`: soonest candidate over the
day list. -/
def weeklyNext (off now hh mm : Int) (days : List Int) : Option Int :=
  jsMinFold (days.map (weeklyCandidate off now hh mm))

/-- The WEEKLY day list: `Array.isArray(schedule.days) && schedule.days.length
> 0 ? schedule.days : [new Date().getDay()]`. -/
def weeklyDayList (days : Option (List Int)) (todayDay : Int) : List Int :=
  match days with
  | some l => if l.length > 0 then l else [todayDay]
  | none => [todayDay]

/-- The first MONTHLY candidate: `next.setDate(targetDay); next.setHours(...)`. -/
def monthlyFirstCandidate (off now targetDay hh mm : Int) : Int :=
  jsSetHours (jsSetDate now off targetDay) off hh mm

/-- The advanced MONTHLY candidate: `next.setMonth(next.getMonth() + 1)`. -/
def monthlyAdvanced (off now targetDay hh mm : Int) : Int :=
  jsSetMonth (monthlyFirstCandidate off now targetDay hh mm) off
    (jsGetMonth (monthlyFirstCandidate off now targetDay hh mm) off + 1)

/-- The day count the MONTHLY branch computes for the advanced candidate:
`new Date(next.getFullYear(), next.getMonth() + 1, 0).getDate()`. -/
def monthlyAdvancedDim (off now targetDay hh mm : Int) : Int :=
  jsGetDate (jsMakeDate off (jsGetFullYear (monthlyAdvanced off now targetDay hh mm) off)
    (jsGetMonth (monthlyAdvanced off now targetDay hh mm) off + 1) 0) off

/-- The MONTHLY branch of `computeNextOccurrence`. -/
def monthlyNext (off now targetDay hh mm : Int) : Int :=
  if monthlyFirstCandidate off now targetDay hh mm ≤ now then
    (if targetDay > monthlyAdvancedDim off now targetDay hh mm
     then jsSetDate (monthlyAdvanced off now targetDay hh mm) off
       (monthlyAdvancedDim off now targetDay hh mm)
     else jsSetDate (monthlyAdvanced off now targetDay hh mm) off targetDay)
  else monthlyFirstCandidate off now targetDay hh mm

/-- Shallow embedding of `computeNextOccurrence(schedule, timezone)` from
`src/services/queueService.ts`.  `off` is the server's local timezone offset
and `now` the instant sampled by `new Date()`.  The `timezone` parameter is
carried exactly as in the source (which never reads it). -/
def computeNextOccurrence (schedule : ScheduleVal) (timezone : String)
    (off now : Int) : Option Int :=
  match schedule with
  | .notObject => none
  | .obj atField frequency time days day _tz =>
    if strTruthy atField then none
    else if frequency == some "DAILY" && strTruthy time then
      some (dailyNext off now (parseTimeParts (time.getD "")).1
        (parseTimeParts (time.getD "")).2)
    else if frequency == some "WEEKLY" && strTruthy time then
      weeklyNext off now (parseTimeParts (time.getD "")).1
        (parseTimeParts (time.getD "")).2 (weeklyDayList days (jsGetDay now off))
    else if frequency == some "MONTHLY" && strTruthy time && intTruthy day then
      some (monthlyNext off now (day.getD 0) (parseTimeParts (time.getD "")).1
        (parseTimeParts (time.getD "")).2)
    else none

/-! ## Delayed job dispatcher -/

/-- A job request handed to the queue (`scheduleJob`). -/
structure JobRequest where
  queueName : String
  jobType : String
  delay : Int
deriving Repr, DecidableEq

/-- `scheduleReminder(reminderId, userId, scheduledFor, type)` from
`queueService.ts`: `delay = scheduledFor.getTime() - Date.now()`; throws for
`delay <= 0`, otherwise enqueues on the reminders queue. -/
def scheduleReminder (scheduledFor now : Int) : Except String JobRequest :=
  let delay := scheduledFor - now
  if delay ≤ 0 then Except.error "Cannot schedule reminder in the past"
  else Except.ok ⟨"reminders", "send-reminder", delay⟩

/-- `scheduleNotification(notificationId, userId, scheduledFor, type, payload)`:
same delay check, notifications queue. -/
def scheduleNotification (scheduledFor now : Int) : Except String JobRequest :=
  let delay := scheduledFor - now
  if delay ≤ 0 then Except.error "Cannot schedule notification in the past"
  else Except.ok ⟨"notifications", "send-notification", delay⟩

/-- Jobs actually enqueued by one dispatcher call. -/
def jobsOf (r : Except String JobRequest) : List JobRequest :=
  match r with
  | .ok j => [j]
  | .error _ => []

/-- `IMMEDIATE_NOTIFICATION_DELAY_MS` from `notificationScheduler.ts`. -/
def IMMEDIATE_NOTIFICATION_DELAY_MS : Int := 1000

/-- `getImmediateScheduleTime(delayMs)`:
`new Date(Date.now() + Math.max(delayMs, 0))`. -/
def getImmediateScheduleTime (now delayMs : Int) : Int :=
  now + max delayMs 0

/-! ## Reminder firing handler (recurrence step) -/

/-- The recurrence step of `processReminderJob` (`queueService.ts`): after the
notification side effect, the handler recomputes the next occurrence with
`computeNextOccurrence` and calls `scheduleReminder` exactly when the
calculator returns a value.  The list holds the instants passed to
`scheduleReminder`. -/
def processReminderJobRescheduleCalls (schedule : ScheduleVal) (timezone : String)
    (off now : Int) : List Int :=
  match computeNextOccurrence schedule timezone off now with
  | some next => [next]
  | none => []

/-- The jobs the recurrence step actually enqueues: `scheduleReminder` throws
for non-positive delays and the surrounding try/catch swallows the error. -/
def processReminderJobEnqueued (schedule : ScheduleVal) (timezone : String)
    (off now : Int) : List JobRequest :=
  (processReminderJobRescheduleCalls schedule timezone off now).foldr
    (fun t acc => jobsOf (scheduleReminder t now) ++ acc) []

/-! ## Task due-date scheduler -/

/-- JavaScript `<=` on possibly-invalid dates (`none` models an Invalid Date;
every comparison involving NaN is false). -/
def jsLeOpt : Option Int → Option Int → Bool
  | some a, some b => a ≤ b
  | _, _ => false

/-- JavaScript `<` on possibly-invalid dates. -/
def jsLtOpt : Option Int → Option Int → Bool
  | some a, some b => a < b
  | _, _ => false

/-- The resolved due instant of `scheduleTaskDueDateNotifications`: when
`dueTime` is truthy it is split on `:` and `Number`-parsed
(`dueTime.split(':').map(Number)`), and `setHours` with a NaN component gives
an Invalid Date (a missing minutes piece is `undefined`, hence NaN); otherwise
23:59 of `dueDate`. -/
def resolveDueDateTime (off dueDate : Int) (dueTime : Option String) : Option Int :=
  match dueTime with
  | some s =>
    if s ≠ "" then
      match ((jsSplit s ':').get? 0).bind jsNumber, ((jsSplit s ':').get? 1).bind jsNumber with
      | some h, some m => some (jsSetHours dueDate off h m)
      | _, _ => none
    else some (jsSetHours dueDate off 23 59)
  | none => some (jsSetHours dueDate off 23 59)

/-- Shallow embedding of the scheduling core of
`scheduleTaskDueDateNotifications` (`notificationScheduler.ts`): the trigger
instants of the reminders that exist after the call.  A reminder whose
`scheduleReminder` call throws (valid past instant) is deleted again; an
Invalid Date (`none`) gives a NaN delay, which passes the `delay <= 0` check.
`oneDayBefore = new Date(dueDateTime); oneDayBefore.setDate(getDate()-1)`. -/
def oneDayBeforeOf (due : Option Int) : Option Int := due.map (fun t => t - msDay)

/-- `oneHourBefore = new Date(dueDateTime); oneHourBefore.setHours(getHours()-1)`. -/
def oneHourBeforeOf (due : Option Int) : Option Int := due.map (fun t => t - msHour)

/-- The reminders created by `scheduleTaskDueDateNotifications` once the due
instant is known to be in the future: the two offset reminders under their
guards, then the at-due reminder unconditionally. -/
def taskDueCreated (now : Int) (due : Option Int) : List (Option Int) :=
  (if jsLtOpt (some now) (oneDayBeforeOf due) && jsLtOpt (oneDayBeforeOf due) due
   then [oneDayBeforeOf due] else [])
  ++ (if jsLtOpt (some now) (oneHourBeforeOf due) && jsLtOpt (oneHourBeforeOf due) due
      then [oneHourBeforeOf due] else [])
  ++ [due]

/-- The scheduling loop: a reminder whose `scheduleReminder` call throws
(valid instant with non-positive delay) is deleted again; an Invalid Date
(`none`) has a NaN delay, which passes the `delay <= 0` check. -/
def keptAfterScheduling (now : Int) (l : List (Option Int)) : List (Option Int) :=
  l.filter (fun t =>
    match t with
    | some v => decide (now < v)
    | none => true)

def scheduleTaskDueDateNotifications (off now dueDate : Int) (dueTime : Option String) :
    List (Option Int) :=
  if jsLeOpt (resolveDueDateTime off dueDate dueTime) (some now) then []
  else keptAfterScheduling now (taskDueCreated now (resolveDueDateTime off dueDate dueTime))

/-! ## Alarm push-notification scheduling -/

/-- A persisted notification record (the fields relevant to alarm
scheduling/cancellation). -/
structure NotificationRec where
  userId : String
  alarmId : Option String
  status : String
deriving Repr, DecidableEq

/-- The `AlarmLike` input of `scheduleAlarmPushNotification`; `time = none`
models an Invalid Date. -/
structure AlarmLike where
  id : String
  userId : String
  title : String
  time : Option Int
  recurrenceRule : Option String
  enabled : Bool
deriving Repr, DecidableEq

/-- `cancelAlarmPushNotifications(alarmId, userId)`: delete every notification
of this user whose payload `alarmId` equals the alarm's id. -/
def cancelAlarmPushNotifications (store : List NotificationRec)
    (alarmId userId : String) : List NotificationRec :=
  store.filter (fun n => !(n.userId == userId && n.alarmId == some alarmId))

/-- `while (t <= now) t += step`: the DAILY (+1 day) and WEEKLY (+7 days)
alarm rollover loops. -/
def advanceLoop (stepMs now t : Int) : Int :=
  if h : 0 < stepMs ∧ t ≤ now then advanceLoop stepMs now (t + stepMs) else t
termination_by (now + stepMs - t).toNat
decreasing_by simp_wf; omega

/-- `d.setMonth(d.getMonth() + 1)`: one calendar month forward. -/
def jsAddOneMonth (t off : Int) : Int := jsSetMonth t off (jsGetMonth t off + 1)

theorem todOf_decomp (t off : Int) :
    t + off = 86400000 * dayNumOf t off + todOf t off ∧
    0 ≤ todOf t off ∧ todOf t off < 86400000 := by
  unfold dayNumOf todOf msDay
  omega

theorem jsCivil_dfc (t off : Int) :
    daysFromCivil (jsCivil t off).year (jsCivil t off).month (jsCivil t off).day
      = dayNumOf t off :=
  daysFromCivil_civilFromDays (dayNumOf t off)

theorem jsCivil_valid (t off : Int) :
    1 ≤ (jsCivil t off).month ∧ (jsCivil t off).month ≤ 12 ∧
    1 ≤ (jsCivil t off).day ∧
    (jsCivil t off).day ≤ daysInMonth (jsCivil t off).year (jsCivil t off).month :=
  civilFromDays_valid (dayNumOf t off)

theorem jsAddOneMonth_eq (t off : Int) :
    jsAddOneMonth t off =
      t + daysInMonth (jsCivil t off).year (jsCivil t off).month * msDay := by
  unfold jsAddOneMonth jsSetMonth jsGetMonth
  have h1 : (jsCivil t off).month - 1 + 1 + 1 = (jsCivil t off).month + 1 := by ring
  rw [h1, daysFromCivil_add_month _ _ _ (jsCivil_valid t off).1 (jsCivil_valid t off).2.1,
    jsCivil_dfc]
  have hd := todOf_decomp t off
  unfold msDay
  omega

theorem jsAddOneMonth_ge (t off : Int) : t + 28 * msDay ≤ jsAddOneMonth t off := by
  rw [jsAddOneMonth_eq]
  have hb := daysInMonth_bounds (jsCivil t off).year (jsCivil t off).month
    (jsCivil_valid t off).1 (jsCivil_valid t off).2.1
  unfold msDay
  omega

/-- `while (t <= now) t.setMonth(t.getMonth() + 1)`: the MONTHLY alarm
rollover loop. -/
def advanceMonthlyLoop (off now t : Int) : Int :=
  if t ≤ now then advanceMonthlyLoop off now (jsAddOneMonth t off) else t
termination_by (now + 1 - t).toNat
decreasing_by
  have hge := jsAddOneMonth_ge t off
  simp_wf
  unfold msDay at hge
  omega

/-- The notification type used for alarm pushes. -/
def ALARM_NOTIFICATION_TYPE : String := "ALARM_TRIGGER"

/-- Result of one `scheduleAlarmPushNotification` call: the notification store
after the call, the instant scheduled (if any), and the queue jobs enqueued. -/
structure AlarmSchedulingResult where
  store : List NotificationRec
  scheduled : Option Int
  jobs : List JobRequest
deriving Repr, DecidableEq

/-- The rollover step of `scheduleAlarmPushNotification`: when a truthy
recurrence rule is present and the alarm time has passed, DAILY/WEEKLY/MONTHLY
rules advance by whole periods until strictly future; any other truthy rule
refuses (`none`, an early return with cancellation) when the time is more than
1 second in the past. -/
def alarmRolledTime (off now alarmTime : Int) (ruleOpt : Option String) : Option Int :=
  if strTruthy ruleOpt && alarmTime ≤ now then
    (if jsStartsWith (ruleOpt.getD "") "FREQ=DAILY" then
       some (advanceLoop msDay now alarmTime)
     else if jsStartsWith (ruleOpt.getD "") "FREQ=WEEKLY" then
       some (advanceLoop msWeek now alarmTime)
     else if jsStartsWith (ruleOpt.getD "") "FREQ=MONTHLY" then
       some (advanceMonthlyLoop off now alarmTime)
     else if alarmTime < now - 1000 then none
     else some alarmTime)
  else some alarmTime

/-- Shallow embedding of `scheduleAlarmPushNotification(alarm)`
(`notificationScheduler.ts`): disabled or invalid alarms cancel and return;
a recurring alarm whose time has passed is rolled forward by whole periods;
otherwise times more than 1 second in the past are refused (with
cancellation); on success the pending notification record is created and a
notifications-queue job enqueued (an enqueue throw rolls the record back). -/
def scheduleAlarmPushNotification (store : List NotificationRec) (alarm : AlarmLike)
    (off now : Int) : AlarmSchedulingResult :=
  if !alarm.enabled then
    ⟨cancelAlarmPushNotifications store alarm.id alarm.userId, none, []⟩
  else
    match alarm.time with
    | none => ⟨cancelAlarmPushNotifications store alarm.id alarm.userId, none, []⟩
    | some alarmTime =>
      match alarmRolledTime off now alarmTime alarm.recurrenceRule with
      | none => ⟨cancelAlarmPushNotifications store alarm.id alarm.userId, none, []⟩
      | some t =>
        if t < now - 1000 then
          ⟨cancelAlarmPushNotifications store alarm.id alarm.userId, none, []⟩
        else
          match scheduleNotification t now with
          | .ok job =>
            ⟨cancelAlarmPushNotifications store alarm.id alarm.userId
              ++ [⟨alarm.userId, some alarm.id, "PENDING"⟩], some t, [job]⟩
          | .error _ =>
            ⟨cancelAlarmPushNotifications
              (cancelAlarmPushNotifications store alarm.id alarm.userId
                ++ [⟨alarm.userId, some alarm.id, "PENDING"⟩]) alarm.id alarm.userId,
              none, []⟩

/-! ## Claim C7: the dispatcher rejects non-positive delays -/

/-- C7: for every `scheduleReminder`/`scheduleNotification` call whose computed
delay `fireTime - now` is ≤ 0, the call raises an error and no job is
enqueued; the 1-second immediate-delay helper path always yields a positive
(1000 ms) delay and so is exempt. -/
theorem claim_C7_dispatcher_rejects_past (scheduledFor now : Int)
    (h : scheduledFor - now ≤ 0) :
    (∃ e, scheduleReminder scheduledFor now = Except.error e) ∧
    jobsOf (scheduleReminder scheduledFor now) = [] ∧
    (∃ e, scheduleNotification scheduledFor now = Except.error e) ∧
    jobsOf (scheduleNotification scheduledFor now) = [] ∧
    (∃ j, scheduleNotification (getImmediateScheduleTime now IMMEDIATE_NOTIFICATION_DELAY_MS) now
        = Except.ok j ∧ j.delay = 1000) := by
  have himm : getImmediateScheduleTime now IMMEDIATE_NOTIFICATION_DELAY_MS - now = 1000 := by
    unfold getImmediateScheduleTime IMMEDIATE_NOTIFICATION_DELAY_MS
    omega
  refine ⟨⟨"Cannot schedule reminder in the past", ?_⟩, ?_, ⟨"Cannot schedule notification in the past", ?_⟩, ?_, ?_⟩
  · unfold scheduleReminder
    rw [if_pos h]
  · unfold jobsOf scheduleReminder
    rw [if_pos h]
  · unfold scheduleNotification
    rw [if_pos h]
  · unfold jobsOf scheduleNotification
    rw [if_pos h]
  · refine ⟨⟨"notifications", "send-notification", 1000⟩, ?_, rfl⟩
    unfold scheduleNotification
    rw [himm, if_neg (by omega)]

/-- Witness for C7 at `scheduledFor = 5`, `now = 7`. -/
theorem claim_C7_witness :
    (5 : Int) - 7 ≤ 0 ∧
    ((∃ e, scheduleReminder 5 7 = Except.error e) ∧
     jobsOf (scheduleReminder 5 7) = [] ∧
     (∃ e, scheduleNotification 5 7 = Except.error e) ∧
     jobsOf (scheduleNotification 5 7) = [] ∧
     (∃ j, scheduleNotification (getImmediateScheduleTime 7 IMMEDIATE_NOTIFICATION_DELAY_MS) 7
        = Except.ok j ∧ j.delay = 1000)) :=
  ⟨by decide, claim_C7_dispatcher_rejects_past 5 7 (by decide)⟩

/-! ## Claim C10: a disabled alarm cancels and schedules nothing -/

/-- C10: for every alarm with `enabled = false`, `scheduleAlarmPushNotification`
deletes all of that alarm's previously stored notifications (in particular
every pending one), adds no new notification record, enqueues no job and
schedules nothing, regardless of the alarm's time or recurrence rule. -/
theorem claim_C10_disabled_alarm_cancels (store : List NotificationRec)
    (alarm : AlarmLike) (off now : Int) (h : alarm.enabled = false) :
    (∀ n ∈ store, n.userId = alarm.userId → n.alarmId = some alarm.id →
      n ∉ (scheduleAlarmPushNotification store alarm off now).store) ∧
    (∀ n ∈ (scheduleAlarmPushNotification store alarm off now).store, n ∈ store) ∧
    (scheduleAlarmPushNotification store alarm off now).jobs = [] ∧
    (scheduleAlarmPushNotification store alarm off now).scheduled = none := by
  have hres : scheduleAlarmPushNotification store alarm off now =
      ⟨cancelAlarmPushNotifications store alarm.id alarm.userId, none, []⟩ := by
    unfold scheduleAlarmPushNotification
    rw [h]
    rfl
  rw [hres]
  refine ⟨?_, ?_, rfl, rfl⟩
  · intro n _ hu ha hmem
    have hb := (List.mem_filter.mp hmem).2
    simp [hu, ha] at hb
  · intro n hn
    exact List.mem_of_mem_filter hn

/-- Witness for C10: a disabled alarm with one stored notification for it. -/
theorem claim_C10_witness :
    (⟨"a1", "u1", "T", some 0, none, false⟩ : AlarmLike).enabled = false ∧
    ((∀ n ∈ [(⟨"u1", some "a1", "PENDING"⟩ : NotificationRec)],
        n.userId = "u1" → n.alarmId = some "a1" →
        n ∉ (scheduleAlarmPushNotification [⟨"u1", some "a1", "PENDING"⟩]
              ⟨"a1", "u1", "T", some 0, none, false⟩ 0 0).store) ∧
     (∀ n ∈ (scheduleAlarmPushNotification [⟨"u1", some "a1", "PENDING"⟩]
              ⟨"a1", "u1", "T", some 0, none, false⟩ 0 0).store,
        n ∈ [(⟨"u1", some "a1", "PENDING"⟩ : NotificationRec)]) ∧
     (scheduleAlarmPushNotification [⟨"u1", some "a1", "PENDING"⟩]
        ⟨"a1", "u1", "T", some 0, none, false⟩ 0 0).jobs = [] ∧
     (scheduleAlarmPushNotification [⟨"u1", some "a1", "PENDING"⟩]
        ⟨"a1", "u1", "T", some 0, none, false⟩ 0 0).scheduled = none) :=
  ⟨rfl, claim_C10_disabled_alarm_cancels [⟨"u1", some "a1", "PENDING"⟩]
    ⟨"a1", "u1", "T", some 0, none, false⟩ 0 0 rfl⟩

/-! ## Claim C5: one-shot `{at}` schedules are never recomputed -/

/-- C5: for every one-shot schedule carrying a truthy `at` value (the stored
`{at: ISO}` shape) and every `now`, `computeNextOccurrence` returns null, and
consequently the firing handler's recurrence step makes no re-enqueue call. -/
theorem claim_C5_one_shot_never_reenqueued (X : String) (hX : X ≠ "")
    (frequency time : Option String) (days : Option (List Int)) (day : Option Int)
    (tz : Option String) (timezone : String) (off now : Int) :
    computeNextOccurrence (ScheduleVal.obj (some X) frequency time days day tz)
      timezone off now = none ∧
    processReminderJobRescheduleCalls (ScheduleVal.obj (some X) frequency time days day tz)
      timezone off now = [] ∧
    processReminderJobEnqueued (ScheduleVal.obj (some X) frequency time days day tz)
      timezone off now = [] := by
  have hat : strTruthy (some X) = true := by
    unfold strTruthy
    exact decide_eq_true hX
  have h1 : computeNextOccurrence (ScheduleVal.obj (some X) frequency time days day tz)
      timezone off now = none := by
    simp [computeNextOccurrence, hat]
  refine ⟨h1, ?_, ?_⟩
  · simp [processReminderJobRescheduleCalls, h1]
  · simp [processReminderJobEnqueued, processReminderJobRescheduleCalls, h1]

/-- Witness for C5 at a concrete ISO timestamp. -/
theorem claim_C5_witness :
    "2025-04-10T00:00:00.000Z" ≠ "" ∧
    (computeNextOccurrence
        (ScheduleVal.obj (some "2025-04-10T00:00:00.000Z") none none none none none)
        "UTC" 0 1744243200000 = none ∧
     processReminderJobRescheduleCalls
        (ScheduleVal.obj (some "2025-04-10T00:00:00.000Z") none none none none none)
        "UTC" 0 1744243200000 = [] ∧
     processReminderJobEnqueued
        (ScheduleVal.obj (some "2025-04-10T00:00:00.000Z") none none none none none)
        "UTC" 0 1744243200000 = []) :=
  ⟨by decide, claim_C5_one_shot_never_reenqueued "2025-04-10T00:00:00.000Z" (by decide)
    none none none none none "UTC" 0 1744243200000⟩

/-! ## Minimum-fold lemmas -/

theorem jsMinFold_go (l : List Int) (a : Int) :
    ∃ r, l.foldl jsMinStep (some a) = some r ∧ (r = a ∨ r ∈ l) ∧ r ≤ a ∧
      ∀ c ∈ l, r ≤ c := by
  induction l generalizing a with
  | nil => exact ⟨a, rfl, Or.inl rfl, le_refl a, by simp⟩
  | cons d rest ih =>
    show ∃ r, rest.foldl jsMinStep (jsMinStep (some a) d) = some r ∧ _
    by_cases hd : d < a
    · rw [show jsMinStep (some a) d = some d by simp [jsMinStep, hd]]
      obtain ⟨r, h1, h2, h3, h4⟩ := ih d
      refine ⟨r, h1, Or.inr ?_, by omega, ?_⟩
      · rcases h2 with h2 | h2
        · simp [h2]
        · exact List.mem_cons_of_mem _ h2
      · intro c hc
        rcases List.mem_cons.mp hc with hc | hc
        · omega
        · exact h4 c hc
    · rw [show jsMinStep (some a) d = some a by simp [jsMinStep, hd]]
      obtain ⟨r, h1, h2, h3, h4⟩ := ih a
      refine ⟨r, h1, ?_, h3, ?_⟩
      · rcases h2 with h2 | h2
        · exact Or.inl h2
        · exact Or.inr (List.mem_cons_of_mem _ h2)
      · intro c hc
        rcases List.mem_cons.mp hc with hc | hc
        · omega
        · exact h4 c hc

theorem jsMinFold_spec (l : List Int) (h : l ≠ []) :
    ∃ r, jsMinFold l = some r ∧ r ∈ l ∧ ∀ c ∈ l, r ≤ c := by
  cases l with
  | nil => exact absurd rfl h
  | cons d rest =>
    obtain ⟨r, h1, h2, h3, h4⟩ := jsMinFold_go rest d
    refine ⟨r, ?_, ?_, ?_⟩
    · unfold jsMinFold
      show rest.foldl jsMinStep (jsMinStep none d) = some r
      exact h1
    · rcases h2 with h2 | h2
      · simp [h2]
      · exact List.mem_cons_of_mem _ h2
    · intro c hc
      rcases List.mem_cons.mp hc with hc | hc
      · omega
      · exact h4 c hc

/-- A WEEKLY day list is never empty, so the fold always produces a value. -/
theorem weeklyNext_isSome (off now hh mm : Int) (days : List Int) (h : days ≠ []) :
    ∃ r, weeklyNext off now hh mm days = some r := by
  obtain ⟨r, hr, -, -⟩ := jsMinFold_spec (days.map (weeklyCandidate off now hh mm))
    (by simpa using h)
  exact ⟨r, hr⟩

/-- `weeklyDayList` is never empty. -/
theorem weeklyDayList_ne_nil (days : Option (List Int)) (todayDay : Int) :
    weeklyDayList days todayDay ≠ [] := by
  unfold weeklyDayList
  cases days with
  | none => simp
  | some l =>
    by_cases hl : l.length > 0
    · simpa [hl] using List.length_pos.mp hl
    · simp [hl]

/-! ## Claim C1: the calculator is not timezone-aware (code bug) -/

/-- C1 (code bug in the source): `computeNextOccurrence` never reads its
`timezone` parameter — the result is identical for any two timezone strings —
and all candidates are built in the server's local zone.  Concretely, on a UTC
server (`off = 0`) at 2025-04-10T00:00:00Z, a DAILY 12:00 schedule declaring
America/New_York (UTC-5, offset −18000000 ms) returns 2025-04-10T12:00:00Z:
its time of day in the declared zone is 07:00, not 12:00, while in the
server's zone it is 12:00. -/
theorem claim_C1_timezone_ignored :
    (∀ (s : ScheduleVal) (tz1 tz2 : String) (off now : Int),
      computeNextOccurrence s tz1 off now = computeNextOccurrence s tz2 off now) ∧
    computeNextOccurrence
      (ScheduleVal.obj none (some "DAILY") (some "12:00") none none
        (some "America/New_York")) "America/New_York" 0 1744243200000
      = some (1744243200000 + 12 * msHour) ∧
    todOf (1744243200000 + 12 * msHour) (-18000000) ≠ 12 * msHour ∧
    todOf (1744243200000 + 12 * msHour) 0 = 12 * msHour := by
  refine ⟨?_, by decide, by decide, by decide⟩
  intro s tz1 tz2 off now
  rfl

/-! ## Claim C8: null cases of the calculator (corrected) -/

/-- C8 counterexample: `"abc"` is not a well-formed `HH:mm` string, yet the
calculator does not return null for a DAILY schedule carrying it — the
unparsable components fall back to `0`, so it returns the next local midnight
(2025-04-11T00:00:00Z here). -/
theorem claim_C8_counterexample :
    computeNextOccurrence (ScheduleVal.obj none (some "DAILY") (some "abc") none none none)
      "UTC" 0 1744243200000 = some 1744329600000 ∧
    computeNextOccurrence (ScheduleVal.obj none (some "DAILY") (some "abc") none none none)
      "UTC" 0 1744243200000 ≠ none := by
  constructor
  · decide
  · decide

/-- C8 amended: the calculator never throws (it is a total function) and
returns null exactly when the schedule is not an object, carries a truthy
`at`, or passes none of the branch guards (DAILY/WEEKLY need a truthy `time`,
MONTHLY needs truthy `time` and `day`; any other frequency is unsupported).
A truthy but malformed `time` is NOT rejected: its unparsable components
default to 0, e.g. DAILY with time `"abc"` yields the next local midnight. -/
theorem claim_C8_amended (schedule : ScheduleVal) (timezone : String) (off now : Int) :
    (computeNextOccurrence schedule timezone off now = none ↔
      (schedule = ScheduleVal.notObject ∨
       ∃ a f t ds d tz, schedule = ScheduleVal.obj a f t ds d tz ∧
         (strTruthy a = true ∨
          (¬(f = some "DAILY" ∧ strTruthy t = true) ∧
           ¬(f = some "WEEKLY" ∧ strTruthy t = true) ∧
           ¬(f = some "MONTHLY" ∧ strTruthy t = true ∧ intTruthy d = true))))) ∧
    computeNextOccurrence (ScheduleVal.obj none (some "DAILY") (some "abc") none none none)
      "UTC" 0 1744243200000 = some 1744329600000 := by
  refine ⟨?_, by decide⟩
  cases schedule with
  | notObject => simp [computeNextOccurrence]
  | obj a f t ds d tz =>
    simp only [computeNextOccurrence]
    by_cases ha : strTruthy a = true
    · rw [if_pos ha]
      constructor
      · intro _
        exact Or.inr ⟨a, f, t, ds, d, tz, rfl, Or.inl ha⟩
      · intro _
        rfl
    · rw [if_neg ha]
      by_cases hd : (f == some "DAILY" && strTruthy t) = true
      · rw [if_pos hd]
        simp only [Bool.and_eq_true, beq_iff_eq] at hd
        constructor
        · intro hc
          exact absurd hc (by simp)
        · intro hc
          rcases hc with hc | ⟨a2, f2, t2, ds2, d2, tz2, heq, hc⟩
          · exact absurd hc (by simp)
          · injection heq with e1 e2 e3 e4 e5 e6
            subst e1; subst e2; subst e3; subst e4; subst e5; subst e6
            rcases hc with hc | hc
            · exact absurd hc ha
            · exact absurd ⟨hd.1, hd.2⟩ hc.1
      · rw [if_neg hd]
        by_cases hw : (f == some "WEEKLY" && strTruthy t) = true
        · rw [if_pos hw]
          simp only [Bool.and_eq_true, beq_iff_eq] at hw
          obtain ⟨r, hr⟩ := weeklyNext_isSome off now (parseTimeParts (t.getD "")).1
            (parseTimeParts (t.getD "")).2 (weeklyDayList ds (jsGetDay now off))
            (weeklyDayList_ne_nil ds (jsGetDay now off))
          rw [hr]
          constructor
          · intro hc
            exact absurd hc (by simp)
          · intro hc
            rcases hc with hc | ⟨a2, f2, t2, ds2, d2, tz2, heq, hc⟩
            · exact absurd hc (by simp)
            · injection heq with e1 e2 e3 e4 e5 e6
              subst e1; subst e2; subst e3; subst e4; subst e5; subst e6
              rcases hc with hc | hc
              · exact absurd hc ha
              · exact absurd ⟨hw.1, hw.2⟩ hc.2.1
        · rw [if_neg hw]
          by_cases hm : (f == some "MONTHLY" && strTruthy t && intTruthy d) = true
          · rw [if_pos hm]
            simp only [Bool.and_eq_true, beq_iff_eq] at hm
            constructor
            · intro hc
              exact absurd hc (by simp)
            · intro hc
              rcases hc with hc | ⟨a2, f2, t2, ds2, d2, tz2, heq, hc⟩
              · exact absurd hc (by simp)
              · injection heq with e1 e2 e3 e4 e5 e6
                subst e1; subst e2; subst e3; subst e4; subst e5; subst e6
                rcases hc with hc | hc
                · exact absurd hc ha
                · exact absurd ⟨hm.1.1, hm.1.2, hm.2⟩ hc.2.2
          · rw [if_neg hm]
            simp only [Bool.and_eq_true, beq_iff_eq, not_and] at hd hw hm
            constructor
            · intro _
              refine Or.inr ⟨a, f, t, ds, d, tz, rfl, Or.inr ⟨?_, ?_, ?_⟩⟩
              · intro hc
                exact hd hc.1 hc.2
              · intro hc
                exact hw hc.1 hc.2
              · intro hc
                exact hm ⟨hc.1, hc.2.1⟩ hc.2.2
            · intro _
              rfl

/-! ## Claim C3: task due-date reminder composition -/

theorem jsLeOpt_some_false {a b : Int} (h : ¬a ≤ b) : jsLeOpt (some a) (some b) = false := by
  simp [jsLeOpt]
  omega

theorem keptAfterScheduling_append (now : Int) (l1 l2 : List (Option Int)) :
    keptAfterScheduling now (l1 ++ l2) =
      keptAfterScheduling now l1 ++ keptAfterScheduling now l2 := by
  unfold keptAfterScheduling
  exact List.filter_append _ _

/-- C3: with a resolvable due instant `dv` (in particular `dueTime = null`,
which resolves to 23:59 of the due date), the task due-date scheduler produces
zero reminders when `dv ≤ now`; otherwise it produces the `due − 1 day` and
`due − 1 hour` reminders exactly when they are strictly in the future and
strictly before the due instant, plus the at-due reminder.  In particular, at
`now = due − 2 days` exactly the three reminders `due − 1 day`, `due − 1 hour`
and `due` are produced, and at `now = due − 30 min` exactly the at-due
reminder is produced. -/
theorem claim_C3_task_due_reminders (off now dueDate : Int) (dueTime : Option String)
    (dv : Int) (hdv : resolveDueDateTime off dueDate dueTime = some dv) :
    (dv ≤ now → scheduleTaskDueDateNotifications off now dueDate dueTime = []) ∧
    (now < dv → scheduleTaskDueDateNotifications off now dueDate dueTime =
      (if now < dv - msDay ∧ dv - msDay < dv then [some (dv - msDay)] else []) ++
      (if now < dv - msHour ∧ dv - msHour < dv then [some (dv - msHour)] else []) ++
      [some dv]) ∧
    scheduleTaskDueDateNotifications off (dv - 2 * msDay) dueDate dueTime =
      [some (dv - msDay), some (dv - msHour), some dv] ∧
    scheduleTaskDueDateNotifications off (dv - 30 * msMin) dueDate dueTime = [some dv] := by
  have hday : (0 : Int) < msDay := by unfold msDay; omega
  have hhour : (0 : Int) < msHour := by unfold msHour; omega
  have hmain : ∀ n : Int, n < dv →
      scheduleTaskDueDateNotifications off n dueDate dueTime =
        (if n < dv - msDay ∧ dv - msDay < dv then [some (dv - msDay)] else []) ++
        (if n < dv - msHour ∧ dv - msHour < dv then [some (dv - msHour)] else []) ++
        [some dv] := by
    intro n hn
    unfold scheduleTaskDueDateNotifications
    rw [hdv, jsLeOpt_some_false (by omega)]
    rw [if_neg (by simp)]
    unfold taskDueCreated oneDayBeforeOf oneHourBeforeOf
    simp only [Option.map_some']
    rw [keptAfterScheduling_append, keptAfterScheduling_append]
    have hlt1 : jsLtOpt (some n) (some (dv - msDay)) = decide (n < dv - msDay) := by
      simp [jsLtOpt]
    have hlt2 : jsLtOpt (some (dv - msDay)) (some dv) = true := by
      simp [jsLtOpt]
      omega
    have hlt3 : jsLtOpt (some n) (some (dv - msHour)) = decide (n < dv - msHour) := by
      simp [jsLtOpt]
    have hlt4 : jsLtOpt (some (dv - msHour)) (some dv) = true := by
      simp [jsLtOpt]
      omega
    rw [hlt1, hlt2, hlt3, hlt4]
    by_cases h1 : n < dv - msDay <;> by_cases h2 : n < dv - msHour <;>
      unfold keptAfterScheduling <;>
      simp [List.filter, h1, h2, hn, hday, hhour] <;>
      omega
  refine ⟨?_, fun hn => hmain now hn, ?_, ?_⟩
  · intro hle
    unfold scheduleTaskDueDateNotifications
    rw [hdv]
    have : jsLeOpt (some dv) (some now) = true := by
      simp [jsLeOpt]
      omega
    rw [this, if_pos rfl]
  · rw [hmain (dv - 2 * msDay) (by unfold msDay; omega)]
    rw [if_pos (by unfold msDay; omega), if_pos (by unfold msDay msHour; omega)]
    rfl
  · rw [hmain (dv - 30 * msMin) (by unfold msMin; omega)]
    rw [if_neg (by unfold msDay msMin; omega), if_neg (by unfold msHour msMin; omega)]
    rfl

/-- Witness for C3: `dueDate = 2025-04-12T00:00Z`, `dueTime = null`, resolved
due instant 2025-04-12T23:59 (server local = UTC), `now` two days before. -/
theorem claim_C3_witness :
    resolveDueDateTime 0 1744416000000 none = some 1744502340000 ∧
    ((1744502340000 : Int) ≤ 1744502340000 - 2 * msDay →
       scheduleTaskDueDateNotifications 0 (1744502340000 - 2 * msDay) 1744416000000 none = []) ∧
    ((1744502340000 : Int) - 2 * msDay < 1744502340000 →
       scheduleTaskDueDateNotifications 0 (1744502340000 - 2 * msDay) 1744416000000 none =
       (if (1744502340000 : Int) - 2 * msDay < 1744502340000 - msDay ∧
           (1744502340000 : Int) - msDay < 1744502340000
        then [some ((1744502340000 : Int) - msDay)] else []) ++
       (if (1744502340000 : Int) - 2 * msDay < 1744502340000 - msHour ∧
           (1744502340000 : Int) - msHour < 1744502340000
        then [some ((1744502340000 : Int) - msHour)] else []) ++
       [some (1744502340000 : Int)]) ∧
    scheduleTaskDueDateNotifications 0 (1744502340000 - 2 * msDay) 1744416000000 none =
      [some ((1744502340000 : Int) - msDay), some ((1744502340000 : Int) - msHour),
       some (1744502340000 : Int)] ∧
    scheduleTaskDueDateNotifications 0 (1744502340000 - 30 * msMin) 1744416000000 none =
      [some (1744502340000 : Int)] :=
  ⟨by decide, claim_C3_task_due_reminders 0 (1744502340000 - 2 * msDay) 1744416000000 none
    1744502340000 (by decide)⟩

/-! ## Occurrence calculator: DAILY and WEEKLY lemmas -/

theorem jsSetHours_decomp (t off h m : Int) :
    jsSetHours t off h m + off = dayNumOf t off * 86400000 + (h * 3600000 + m * 60000) := by
  unfold jsSetHours msDay msHour msMin
  ring

theorem dayNum_le (t off : Int) :
    86400000 * dayNumOf t off ≤ t + off ∧ t + off < 86400000 * (dayNumOf t off + 1) := by
  have h := todOf_decomp t off
  omega

/-- The DAILY branch always returns a strictly future instant when the parsed
time of day is non-negative. -/
theorem dailyNext_gt (off now hh mm : Int) (hT : 0 ≤ hh * msHour + mm * msMin) :
    now < dailyNext off now hh mm := by
  have hsh := jsSetHours_decomp now off hh mm
  have hdn := dayNum_le now off
  unfold msHour msMin at hT
  unfold dailyNext jsAddDays msDay
  split <;> omega

/-- The DAILY result is today's or tomorrow's `hh:mm` and carries exactly that
time of day. -/
theorem dailyNext_shape (off now hh mm : Int)
    (hT1 : 0 ≤ hh * msHour + mm * msMin) (hT2 : hh * msHour + mm * msMin < msDay) :
    todOf (dailyNext off now hh mm) off = hh * msHour + mm * msMin ∧
    (dayNumOf (dailyNext off now hh mm) off = dayNumOf now off ∨
     dayNumOf (dailyNext off now hh mm) off = dayNumOf now off + 1) := by
  have hsh := jsSetHours_decomp now off hh mm
  have hdn := dayNum_le now off
  simp only [msHour, msMin, msDay] at hT1 hT2
  unfold dailyNext jsAddDays
  simp only [dayNumOf, msDay, msHour, msMin] at hsh hdn
  split <;> constructor <;>
    simp only [todOf, dayNumOf, msDay, msHour, msMin] <;> omega

theorem jsGetDay_bounds (t off : Int) : 0 ≤ jsGetDay t off ∧ jsGetDay t off < 7 := by
  unfold jsGetDay
  omega

/-- Closed form of the raw WEEKLY candidate for a weekday in 0..6. -/
theorem weeklyRawCandidate_eq (off now hh mm w : Int) (hw1 : 0 ≤ w) (hw2 : w ≤ 6) :
    weeklyRawCandidate off now hh mm w =
      (dayNumOf now off + (w - jsGetDay now off + 7) % 7) * 86400000
        + (hh * 3600000 + mm * 60000) - off := by
  have hgb := jsGetDay_bounds now off
  unfold weeklyRawCandidate
  rw [Int.tmod_eq_emod (by omega) (by omega)]
  have hdn : dayNumOf (jsAddDays now ((w - jsGetDay now off + 7) % 7)) off =
      dayNumOf now off + (w - jsGetDay now off + 7) % 7 := by
    unfold jsAddDays dayNumOf msDay
    omega
  unfold jsSetHours
  rw [hdn]
  unfold msDay msHour msMin
  ring

/-- The WEEKLY candidate for a weekday in 0..6 is strictly future, lands on
that weekday at exactly the parsed time of day, and is within the last seven
days of `now` (so it is the soonest matching instant). -/
theorem weeklyCandidate_spec (off now hh mm w : Int) (hw1 : 0 ≤ w) (hw2 : w ≤ 6)
    (hT1 : 0 ≤ hh * msHour + mm * msMin) (hT2 : hh * msHour + mm * msMin < msDay) :
    now < weeklyCandidate off now hh mm w ∧
    jsGetDay (weeklyCandidate off now hh mm w) off = w ∧
    todOf (weeklyCandidate off now hh mm w) off = hh * msHour + mm * msMin ∧
    weeklyCandidate off now hh mm w - 7 * msDay ≤ now := by
  have hgb := jsGetDay_bounds now off
  have hdn := dayNum_le now off
  unfold weeklyCandidate
  rw [weeklyRawCandidate_eq off now hh mm w hw1 hw2]
  simp only [jsGetDay, jsAddDays, dayNumOf, todOf, msDay, msHour, msMin]
    at hgb hdn hT1 hT2 ⊢
  split <;> refine ⟨by omega, by omega, by omega, by omega⟩

/-- Any instant strictly after `now` that matches the schedule (same weekday,
same time of day) is no earlier than the WEEKLY candidate for that weekday. -/
theorem weeklyCandidate_minimal (off now hh mm w x : Int) (hw1 : 0 ≤ w) (hw2 : w ≤ 6)
    (hT1 : 0 ≤ hh * msHour + mm * msMin) (hT2 : hh * msHour + mm * msMin < msDay)
    (hx1 : now < x) (hx2 : jsGetDay x off = w)
    (hx3 : todOf x off = hh * msHour + mm * msMin) :
    weeklyCandidate off now hh mm w ≤ x := by
  obtain ⟨h1, h2, h3, h4⟩ := weeklyCandidate_spec off now hh mm w hw1 hw2 hT1 hT2
  have hdx := todOf_decomp x off
  have hdc := todOf_decomp (weeklyCandidate off now hh mm w) off
  simp only [jsGetDay, todOf, dayNumOf, msDay, msHour, msMin]
    at h2 h3 h4 hx2 hx3 hdx hdc hT1 hT2
  omega

/-- The WEEKLY soonest-candidate search over a non-empty day list of weekdays
in 0..6: the result is strictly future, its weekday belongs to the list, it is
the minimum of the per-day candidates, and no earlier future instant matching
the schedule exists. -/
theorem weeklyNext_spec (off now hh mm : Int) (days : List Int) (hne : days ≠ [])
    (hdays : ∀ w ∈ days, 0 ≤ w ∧ w ≤ 6)
    (hT1 : 0 ≤ hh * msHour + mm * msMin) (hT2 : hh * msHour + mm * msMin < msDay) :
    ∃ r, weeklyNext off now hh mm days = some r ∧
      now < r ∧
      jsGetDay r off ∈ days ∧
      todOf r off = hh * msHour + mm * msMin ∧
      (∀ w ∈ days, r ≤ weeklyCandidate off now hh mm w) ∧
      (∀ x, now < x → jsGetDay x off ∈ days →
        todOf x off = hh * msHour + mm * msMin → r ≤ x) := by
  obtain ⟨r, hr, hmem, hmin⟩ := jsMinFold_spec (days.map (weeklyCandidate off now hh mm))
    (by simpa using hne)
  obtain ⟨w, hw, hcw⟩ := List.mem_map.mp hmem
  obtain ⟨hwb1, hwb2⟩ := hdays w hw
  obtain ⟨hc1, hc2, hc3, _⟩ := weeklyCandidate_spec off now hh mm w hwb1 hwb2 hT1 hT2
  rw [hcw] at hc1 hc2 hc3
  refine ⟨r, hr, hc1, ?_, hc3, ?_, ?_⟩
  · rw [hc2]
    exact hw
  · intro w2 hw2
    exact hmin _ (List.mem_map_of_mem _ hw2)
  · intro x hx1 hx2 hx3
    have hxb := hdays _ hx2
    have := weeklyCandidate_minimal off now hh mm (jsGetDay x off) x hxb.1 hxb.2
      hT1 hT2 hx1 rfl hx3
    have hrc := hmin _ (List.mem_map_of_mem (weeklyCandidate off now hh mm) hx2)
    omega

/-! ## Occurrence calculator: MONTHLY lemmas -/

theorem neg_tmod_eq (a b : Int) : (-a).tmod b = -(a.tmod b) := by
  rw [Int.tmod_def, Int.tmod_def, Int.neg_tdiv]
  ring

theorem tmod7_bounds (x : Int) : -6 ≤ x.tmod 7 ∧ x.tmod 7 ≤ 6 := by
  rcases le_or_lt 0 x with h | h
  · rw [Int.tmod_eq_emod h (by norm_num)]
    omega
  · rw [show x = -(-x) by ring, neg_tmod_eq,
      Int.tmod_eq_emod (by omega) (by norm_num)]
    omega

/-- A WEEKLY candidate is strictly future for every weekday argument (its
`(day - getDay + 7) % 7` shift uses JavaScript truncated `%`, which stays
above `-7` even for out-of-range day values). -/
theorem weeklyCandidate_gt (off now hh mm w : Int)
    (hT : 0 ≤ hh * msHour + mm * msMin) :
    now < weeklyCandidate off now hh mm w := by
  have hb := tmod7_bounds (w - jsGetDay now off + 7)
  simp only [msHour, msMin] at hT
  unfold weeklyCandidate weeklyRawCandidate jsSetHours jsAddDays dayNumOf msDay msHour msMin
  split <;> omega

/-- Whatever the day list holds, a WEEKLY result is strictly future. -/
theorem weeklyNext_gt (off now hh mm : Int) (days : List Int) (r : Int)
    (hT : 0 ≤ hh * msHour + mm * msMin)
    (hr : weeklyNext off now hh mm days = some r) : now < r := by
  by_cases hne : days = []
  · subst hne
    exact absurd hr (by simp [weeklyNext, jsMinFold])
  · obtain ⟨r', h1, h2, h3⟩ := jsMinFold_spec (days.map (weeklyCandidate off now hh mm))
      (by simpa using hne)
    unfold weeklyNext at hr
    rw [h1] at hr
    injection hr with hr'
    obtain ⟨w, hw, hcw⟩ := List.mem_map.mp h2
    rw [← hr', ← hcw]
    exact weeklyCandidate_gt off now hh mm w hT

theorem normYM_range (m : Int) : 1 ≤ normYMmonth m ∧ normYMmonth m ≤ 12 := by
  unfold normYMmonth
  omega

/-- `daysFromCivil` is invariant under month normalisation. -/
theorem dfc_norm (y m d : Int) :
    daysFromCivil y m d = daysFromCivil (normYMyear y m) (normYMmonth m) d := by
  have h := normYM_range m
  unfold daysFromCivil
  rw [normYMyear_id (normYMyear y m) (normYMmonth m) h.1 h.2,
    normYMmonth_id (normYMmonth m) h.1 h.2]

theorem dayNum_of_linear (off z r : Int) (h1 : 0 ≤ r) (h2 : r < msDay) :
    dayNumOf (z * msDay + r - off) off = z ∧ todOf (z * msDay + r - off) off = r := by
  unfold msDay at h2
  unfold dayNumOf todOf msDay
  omega

theorem jsCivil_of_linear (off z r : Int) (h1 : 0 ≤ r) (h2 : r < msDay) :
    jsCivil (z * msDay + r - off) off = civilFromDays z := by
  unfold jsCivil
  rw [(dayNum_of_linear off z r h1 h2).1]

/-- Rollover form of the inverse: a day argument past the end of the month
(by at most 28 days) lands in the following month. -/
theorem civilFromDays_dfc_over (y m d : Int) (hm1 : 1 ≤ m) (hm2 : m ≤ 12)
    (hd1 : daysInMonth y m < d) (hd2 : d ≤ daysInMonth y m + 28) :
    civilFromDays (daysFromCivil y m d) =
      ⟨normYMyear y (m + 1), normYMmonth (m + 1), d - daysInMonth y m⟩ := by
  have hlin := daysFromCivil_linear y m (d - daysInMonth y m) d
  have ham := daysFromCivil_add_month y m (d - daysInMonth y m) hm1 hm2
  have hnorm := dfc_norm y (m + 1) (d - daysInMonth y m)
  have hnr := normYM_range (m + 1)
  have hb := daysInMonth_bounds (normYMyear y (m + 1)) (normYMmonth (m + 1)) hnr.1 hnr.2
  have hrt := civilFromDays_daysFromCivil (normYMyear y (m + 1)) (normYMmonth (m + 1))
    (d - daysInMonth y m) hnr.1 hnr.2 (by omega) (by omega)
  rw [show daysFromCivil y m d = daysFromCivil (normYMyear y (m + 1)) (normYMmonth (m + 1))
      (d - daysInMonth y m) by omega]
  exact hrt

/-- Closed form of the first MONTHLY candidate. -/
theorem monthlyFirstCandidate_eq (off now targetDay hh mm : Int) :
    monthlyFirstCandidate off now targetDay hh mm =
      daysFromCivil (jsCivil now off).year (jsCivil now off).month targetDay * msDay
        + (hh * msHour + mm * msMin) - off := by
  have htd := todOf_decomp now off
  have hdl := dayNum_of_linear off (daysFromCivil (jsCivil now off).year
      (jsCivil now off).month targetDay) (todOf now off) htd.2.1 (by unfold msDay; omega)
  unfold monthlyFirstCandidate jsSetHours jsSetDate
  rw [hdl.1]
  ring

/-- Closed form of the advanced MONTHLY candidate. -/
theorem monthlyAdvanced_eq (off now targetDay hh mm : Int)
    (hT1 : 0 ≤ hh * msHour + mm * msMin) (hT2 : hh * msHour + mm * msMin < msDay) :
    monthlyAdvanced off now targetDay hh mm =
      daysFromCivil
        (civilFromDays (daysFromCivil (jsCivil now off).year (jsCivil now off).month
          targetDay)).year
        ((civilFromDays (daysFromCivil (jsCivil now off).year (jsCivil now off).month
          targetDay)).month + 1)
        (civilFromDays (daysFromCivil (jsCivil now off).year (jsCivil now off).month
          targetDay)).day
        * msDay + (hh * msHour + mm * msMin) - off := by
  have hfc := monthlyFirstCandidate_eq off now targetDay hh mm
  have hciv : jsCivil (monthlyFirstCandidate off now targetDay hh mm) off =
      civilFromDays (daysFromCivil (jsCivil now off).year (jsCivil now off).month
        targetDay) := by
    rw [hfc]
    exact jsCivil_of_linear off _ _ hT1 hT2
  have htodF : todOf (monthlyFirstCandidate off now targetDay hh mm) off =
      hh * msHour + mm * msMin := by
    rw [hfc]
    exact (dayNum_of_linear off _ _ hT1 hT2).2
  have harith : ∀ a : Int, a - 1 + 1 + 1 = a + 1 := fun a => by ring
  unfold monthlyAdvanced jsSetMonth jsGetMonth
  rw [hciv, htodF, harith]

/-- `new Date(Y, M, 0).getDate()` (1-based month `M` in range) is the day
count of month `M`. -/
theorem computedDim_eq (off Y M : Int) (hm1 : 1 ≤ M) (hm2 : M ≤ 12) :
    jsGetDate (jsMakeDate off Y M 0) off = daysInMonth Y M := by
  have hb := daysInMonth_bounds Y M hm1 hm2
  have hlin := daysFromCivil_linear Y M (daysInMonth Y M) 0
  have ham := daysFromCivil_add_month Y M 0 hm1 hm2
  have hrt := civilFromDays_daysFromCivil Y M (daysInMonth Y M) hm1 hm2 (by omega) le_rfl
  unfold jsGetDate jsMakeDate jsCivil
  rw [show daysFromCivil Y (M + 1) 0 * msDay - off
      = daysFromCivil Y (M + 1) 0 * msDay + 0 - off by ring]
  rw [(dayNum_of_linear off (daysFromCivil Y (M + 1) 0) 0 le_rfl (by unfold msDay; omega)).1]
  rw [show daysFromCivil Y (M + 1) 0 = daysFromCivil Y M (daysInMonth Y M) by omega]
  rw [hrt]

/-- The day count the MONTHLY branch computes is the day count of the month
the advanced candidate actually landed in (after any `setMonth` rollover). -/
theorem monthlyAdvancedDim_eq (off now targetDay hh mm : Int) :
    monthlyAdvancedDim off now targetDay hh mm =
      daysInMonth (jsCivil (monthlyAdvanced off now targetDay hh mm) off).year
        (jsCivil (monthlyAdvanced off now targetDay hh mm) off).month := by
  have hv := jsCivil_valid (monthlyAdvanced off now targetDay hh mm) off
  have harith : ∀ a : Int, a - 1 + 1 = a := fun a => by ring
  unfold monthlyAdvancedDim jsGetFullYear jsGetMonth
  rw [harith]
  exact computedDim_eq off _ _ hv.1 hv.2.1

/-- The MONTHLY branch always returns a strictly future instant for a target
day ≥ 1 and a well-formed time of day. -/
theorem monthlyNext_gt (off now targetDay hh mm : Int) (hD : 1 ≤ targetDay)
    (hT1 : 0 ≤ hh * msHour + mm * msMin) (hT2 : hh * msHour + mm * msMin < msDay) :
    now < monthlyNext off now targetDay hh mm := by
  have htd := todOf_decomp now off
  rcases hEn : jsCivil now off with ⟨y, m, dn⟩
  have hy : (jsCivil now off).year = y := by rw [hEn]
  have hm' : (jsCivil now off).month = m := by rw [hEn]
  have hdn : (jsCivil now off).day = dn := by rw [hEn]
  have hvn := jsCivil_valid now off
  rw [hy, hm', hdn] at hvn
  have hdfcn := jsCivil_dfc now off
  rw [hy, hm', hdn] at hdfcn
  have hfc := monthlyFirstCandidate_eq off now targetDay hh mm
  rw [hy, hm'] at hfc
  have hdimb := daysInMonth_bounds y m hvn.1 hvn.2.1
  have hlinD := daysFromCivil_linear y m targetDay dn
  unfold monthlyNext
  by_cases hfle : monthlyFirstCandidate off now targetDay hh mm ≤ now
  swap
  · rw [if_neg hfle]
    omega
  rw [if_pos hfle]
  rw [hfc] at hfle
  have hDle : targetDay ≤ dn := by
    have h1 := hT1
    have h2 := hT2
    have h3 := hfle
    simp only [msDay, msHour, msMin] at h1 h2 h3
    omega
  have hDdim : targetDay ≤ daysInMonth y m := by omega
  have hcivF := civilFromDays_daysFromCivil y m targetDay hvn.1 hvn.2.1 hD hDdim
  have hadv0 := monthlyAdvanced_eq off now targetDay hh mm hT1 hT2
  rw [hy, hm', hcivF] at hadv0
  have hadv : monthlyAdvanced off now targetDay hh mm =
      daysFromCivil y (m + 1) targetDay * msDay + (hh * msHour + mm * msMin) - off := hadv0
  have hcivA : jsCivil (monthlyAdvanced off now targetDay hh mm) off =
      civilFromDays (daysFromCivil y (m + 1) targetDay) := by
    rw [hadv]
    exact jsCivil_of_linear off _ _ hT1 hT2
  have htodA : todOf (monthlyAdvanced off now targetDay hh mm) off =
      hh * msHour + mm * msMin := by
    rw [hadv]
    exact (dayNum_of_linear off _ _ hT1 hT2).2
  have ham := daysFromCivil_add_month y m targetDay hvn.1 hvn.2.1
  rcases hEa : civilFromDays (daysFromCivil y (m + 1) targetDay) with ⟨Ya, Ma, Da⟩
  have hAy : (jsCivil (monthlyAdvanced off now targetDay hh mm) off).year = Ya := by
    rw [hcivA, hEa]
  have hAm : (jsCivil (monthlyAdvanced off now targetDay hh mm) off).month = Ma := by
    rw [hcivA, hEa]
  have hdimeq : monthlyAdvancedDim off now targetDay hh mm = daysInMonth Ya Ma := by
    have h := monthlyAdvancedDim_eq off now targetDay hh mm
    rw [hAy, hAm] at h
    exact h
  have hval0 := civilFromDays_valid (daysFromCivil y (m + 1) targetDay)
  rw [hEa] at hval0
  have hval : 1 ≤ Ma ∧ Ma ≤ 12 ∧ 1 ≤ Da ∧ Da ≤ daysInMonth Ya Ma := hval0
  have hrt0 := daysFromCivil_civilFromDays (daysFromCivil y (m + 1) targetDay)
  rw [hEa] at hrt0
  have hrt : daysFromCivil Ya Ma Da = daysFromCivil y (m + 1) targetDay := hrt0
  have hnr := normYM_range (m + 1)
  have hdim2b := daysInMonth_bounds (normYMyear y (m + 1)) (normYMmonth (m + 1)) hnr.1 hnr.2
  have hDa : Da = targetDay ∨
      (Da = targetDay - daysInMonth (normYMyear y (m + 1)) (normYMmonth (m + 1)) ∧
        daysInMonth (normYMyear y (m + 1)) (normYMmonth (m + 1)) < targetDay) := by
    by_cases hc : targetDay ≤ daysInMonth (normYMyear y (m + 1)) (normYMmonth (m + 1))
    · left
      have h2 : civilFromDays (daysFromCivil y (m + 1) targetDay) =
          ⟨normYMyear y (m + 1), normYMmonth (m + 1), targetDay⟩ := by
        rw [dfc_norm y (m + 1) targetDay]
        exact civilFromDays_daysFromCivil _ _ _ hnr.1 hnr.2 hD hc
      rw [hEa] at h2
      simp only [Civil.mk.injEq] at h2
      exact h2.2.2
    · right
      have h2 : civilFromDays (daysFromCivil y (m + 1) targetDay) =
          ⟨normYMyear (normYMyear y (m + 1)) (normYMmonth (m + 1) + 1),
            normYMmonth (normYMmonth (m + 1) + 1),
            targetDay - daysInMonth (normYMyear y (m + 1)) (normYMmonth (m + 1))⟩ := by
        rw [dfc_norm y (m + 1) targetDay]
        exact civilFromDays_dfc_over _ _ _ hnr.1 hnr.2 (by omega) (by omega)
      rw [hEa] at h2
      simp only [Civil.mk.injEq] at h2
      exact ⟨h2.2.2, by omega⟩
  rw [hdimeq]
  by_cases hc3 : targetDay > daysInMonth Ya Ma
  · rw [if_pos hc3]
    have hlin3 := daysFromCivil_linear Ya Ma Da (daysInMonth Ya Ma)
    have hsd : jsSetDate (monthlyAdvanced off now targetDay hh mm) off (daysInMonth Ya Ma) =
        daysFromCivil Ya Ma (daysInMonth Ya Ma) * msDay
          + (hh * msHour + mm * msMin) - off := by
      unfold jsSetDate
      rw [hAy, hAm, htodA]
    rw [hsd]
    simp only [msDay, msHour, msMin] at hT1 hT2 hfle ⊢
    omega
  · rw [if_neg hc3]
    have hlin3 := daysFromCivil_linear Ya Ma Da targetDay
    have hsd : jsSetDate (monthlyAdvanced off now targetDay hh mm) off targetDay =
        daysFromCivil Ya Ma targetDay * msDay + (hh * msHour + mm * msMin) - off := by
      unfold jsSetDate
      rw [hAy, hAm, htodA]
    rw [hsd]
    simp only [msDay, msHour, msMin] at hT1 hT2 hfle ⊢
    omega

/-! ## Claim C2: MONTHLY clamping (code bug) -/

/-- C2 (code bug in the source): the MONTHLY branch does not clamp as claimed.
(1) The first candidate is built with a plain `setDate(day)`, which rolls
over instead of clamping: at 2025-04-10 00:00 UTC (April has 30 days), a
`day = 31`, `time = "09:00"` schedule yields 2025-05-01T09:00, not the
claimed clamp 2025-04-30T09:00.
(2) The advance branch computes the reference day count only after
`setMonth` has already rolled the date over, so the clamp compares against
the wrong month: at 2025-01-31 10:00 UTC the `day = 31` schedule yields
2025-03-31T09:00 — February is skipped entirely instead of clamping to
2025-02-28T09:00. -/
theorem claim_C2_monthly_not_clamped :
    (computeNextOccurrence (ScheduleVal.obj none (some "MONTHLY") (some "09:00") none
        (some 31) none) "UTC" 0 1744243200000 = some 1746090000000 ∧
      jsCivil 1746090000000 0 = ⟨2025, 5, 1⟩ ∧
      daysInMonth 2025 4 = 30 ∧
      jsCivil 1746003600000 0 = ⟨2025, 4, 30⟩ ∧
      (1746090000000 : Int) ≠ 1746003600000) ∧
    (computeNextOccurrence (ScheduleVal.obj none (some "MONTHLY") (some "09:00") none
        (some 31) none) "UTC" 0 1738317600000 = some 1743411600000 ∧
      jsCivil 1743411600000 0 = ⟨2025, 3, 31⟩ ∧
      daysInMonth 2025 2 = 28 ∧
      jsCivil 1740733200000 0 = ⟨2025, 2, 28⟩ ∧
      (jsCivil 1743411600000 0).month ≠ 2) :=
  ⟨⟨by decide, by decide, by decide, by decide, by decide⟩,
    ⟨by decide, by decide, by decide, by decide, by decide⟩⟩

/-! ## Claim C4: recurring reminders are re-enqueued strictly in the future -/

/-- Any occurrence the calculator returns is strictly future, provided the
schedule is well-formed per the data model: its time parses to a time of day
within one day and a MONTHLY day is ≥ 1. -/
theorem computeNextOccurrence_gt (a f t : Option String) (ds : Option (List Int))
    (d : Option Int) (tz : Option String) (timezone : String) (off now nxt : Int)
    (hT1 : 0 ≤ (parseTimeParts (t.getD "")).1 * msHour
      + (parseTimeParts (t.getD "")).2 * msMin)
    (hT2 : (parseTimeParts (t.getD "")).1 * msHour
      + (parseTimeParts (t.getD "")).2 * msMin < msDay)
    (hd : f = some "MONTHLY" → 1 ≤ d.getD 0)
    (hs : computeNextOccurrence (ScheduleVal.obj a f t ds d tz) timezone off now
      = some nxt) :
    now < nxt := by
  simp only [computeNextOccurrence] at hs
  by_cases ha : strTruthy a = true
  · rw [if_pos ha] at hs
    exact absurd hs (by simp)
  · rw [if_neg ha] at hs
    by_cases hdly : (f == some "DAILY" && strTruthy t) = true
    · rw [if_pos hdly] at hs
      injection hs with hs'
      rw [← hs']
      exact dailyNext_gt off now _ _ hT1
    · rw [if_neg hdly] at hs
      by_cases hw : (f == some "WEEKLY" && strTruthy t) = true
      · rw [if_pos hw] at hs
        exact weeklyNext_gt off now _ _ _ nxt hT1 hs
      · rw [if_neg hw] at hs
        by_cases hm : (f == some "MONTHLY" && strTruthy t && intTruthy d) = true
        · rw [if_pos hm] at hs
          injection hs with hs'
          rw [← hs']
          refine monthlyNext_gt off now _ _ _ ?_ hT1 hT2
          simp only [Bool.and_eq_true, beq_iff_eq] at hm
          exact hd hm.1.1
        · rw [if_neg hm] at hs
          exact absurd hs (by simp)

/-- C4: firing a reminder whose stored schedule has a `frequency` makes
exactly one re-enqueue call, with a freshly computed occurrence that is
strictly in the future (so the dispatcher accepts it and exactly one job is
enqueued), or zero calls when the calculator returns null.  Well-formedness
per the data model: the schedule's time parses to a time of day within one
day and a MONTHLY day is ≥ 1. -/
theorem claim_C4_recurring_reenqueue (a f t : Option String) (ds : Option (List Int))
    (d : Option Int) (tz : Option String) (timezone : String) (off now : Int)
    (hT1 : 0 ≤ (parseTimeParts (t.getD "")).1 * msHour
      + (parseTimeParts (t.getD "")).2 * msMin)
    (hT2 : (parseTimeParts (t.getD "")).1 * msHour
      + (parseTimeParts (t.getD "")).2 * msMin < msDay)
    (hd : f = some "MONTHLY" → 1 ≤ d.getD 0) :
    (computeNextOccurrence (ScheduleVal.obj a f t ds d tz) timezone off now = none →
      processReminderJobRescheduleCalls (ScheduleVal.obj a f t ds d tz) timezone off now
        = [] ∧
      processReminderJobEnqueued (ScheduleVal.obj a f t ds d tz) timezone off now = []) ∧
    (∀ nxt, computeNextOccurrence (ScheduleVal.obj a f t ds d tz) timezone off now
        = some nxt →
      now < nxt ∧
      processReminderJobRescheduleCalls (ScheduleVal.obj a f t ds d tz) timezone off now
        = [nxt] ∧
      processReminderJobEnqueued (ScheduleVal.obj a f t ds d tz) timezone off now
        = [⟨"reminders", "send-reminder", nxt - now⟩]) := by
  constructor
  · intro hn
    constructor
    · unfold processReminderJobRescheduleCalls
      rw [hn]
    · unfold processReminderJobEnqueued processReminderJobRescheduleCalls
      rw [hn]
      rfl
  · intro nxt hs
    have hgt := computeNextOccurrence_gt a f t ds d tz timezone off now nxt hT1 hT2 hd hs
    refine ⟨hgt, ?_, ?_⟩
    · unfold processReminderJobRescheduleCalls
      rw [hs]
    · unfold processReminderJobEnqueued processReminderJobRescheduleCalls
      rw [hs]
      show jobsOf (scheduleReminder nxt now) ++ [] = _
      unfold jobsOf scheduleReminder
      rw [if_neg (by omega)]
      rfl

/-- Witness for C4: a DAILY 09:00 schedule at 2025-04-10T00:00Z on a UTC
server; the calculator returns 09:00 the same day and one job is enqueued. -/
theorem claim_C4_witness :
    (0 ≤ (parseTimeParts ((some "09:00").getD "")).1 * msHour
      + (parseTimeParts ((some "09:00").getD "")).2 * msMin) ∧
    ((parseTimeParts ((some "09:00").getD "")).1 * msHour
      + (parseTimeParts ((some "09:00").getD "")).2 * msMin < msDay) ∧
    ((computeNextOccurrence (ScheduleVal.obj none (some "DAILY") (some "09:00") none none
        none) "UTC" 0 1744243200000 = none →
      processReminderJobRescheduleCalls (ScheduleVal.obj none (some "DAILY")
        (some "09:00") none none none) "UTC" 0 1744243200000 = [] ∧
      processReminderJobEnqueued (ScheduleVal.obj none (some "DAILY") (some "09:00")
        none none none) "UTC" 0 1744243200000 = []) ∧
    (∀ nxt, computeNextOccurrence (ScheduleVal.obj none (some "DAILY") (some "09:00")
        none none none) "UTC" 0 1744243200000 = some nxt →
      (1744243200000 : Int) < nxt ∧
      processReminderJobRescheduleCalls (ScheduleVal.obj none (some "DAILY")
        (some "09:00") none none none) "UTC" 0 1744243200000 = [nxt] ∧
      processReminderJobEnqueued (ScheduleVal.obj none (some "DAILY") (some "09:00")
        none none none) "UTC" 0 1744243200000
        = [⟨"reminders", "send-reminder", nxt - 1744243200000⟩])) :=
  ⟨by decide, by decide,
    claim_C4_recurring_reenqueue none (some "DAILY") (some "09:00") none none none
      "UTC" 0 1744243200000 (by decide) (by decide) (by decide)⟩

/-! ## Claim C6: WEEKLY returns the soonest matching future instant -/

/-- C6: for a WEEKLY schedule with a parseable time, the returned occurrence
exists, is strictly future, falls on a weekday of the (defaulted) day list at
exactly the parsed time of day, is the minimum over the per-day candidates,
and no earlier future instant matching the schedule exists; an empty or
absent `days` set defaults to the singleton of now's weekday. -/
theorem claim_C6_weekly_soonest (tstr : String) (htt : tstr ≠ "")
    (ds : Option (List Int)) (d : Option Int) (tz : Option String) (timezone : String)
    (off now : Int)
    (hds : ds = none ∨ ∃ l, ds = some l ∧ ∀ w ∈ l, 0 ≤ w ∧ w ≤ 6)
    (hT1 : 0 ≤ (parseTimeParts tstr).1 * msHour + (parseTimeParts tstr).2 * msMin)
    (hT2 : (parseTimeParts tstr).1 * msHour + (parseTimeParts tstr).2 * msMin < msDay) :
    (∃ r, computeNextOccurrence (ScheduleVal.obj none (some "WEEKLY") (some tstr) ds d tz)
        timezone off now = some r ∧
      now < r ∧
      jsGetDay r off ∈ weeklyDayList ds (jsGetDay now off) ∧
      todOf r off = (parseTimeParts tstr).1 * msHour + (parseTimeParts tstr).2 * msMin ∧
      (∀ w ∈ weeklyDayList ds (jsGetDay now off),
        r ≤ weeklyCandidate off now (parseTimeParts tstr).1 (parseTimeParts tstr).2 w) ∧
      (∀ x, now < x → jsGetDay x off ∈ weeklyDayList ds (jsGetDay now off) →
        todOf x off = (parseTimeParts tstr).1 * msHour + (parseTimeParts tstr).2 * msMin →
        r ≤ x)) ∧
    weeklyDayList none (jsGetDay now off) = [jsGetDay now off] ∧
    (∀ l : List Int, l.length = 0 →
      weeklyDayList (some l) (jsGetDay now off) = [jsGetDay now off]) := by
  have hcomp : computeNextOccurrence (ScheduleVal.obj none (some "WEEKLY") (some tstr)
      ds d tz) timezone off now =
      weeklyNext off now (parseTimeParts tstr).1 (parseTimeParts tstr).2
        (weeklyDayList ds (jsGetDay now off)) := by
    simp only [computeNextOccurrence]
    rw [if_neg (by simp [strTruthy])]
    rw [if_neg (by simp)]
    rw [if_pos (by simp [strTruthy, htt])]
    rfl
  have hdays : ∀ w ∈ weeklyDayList ds (jsGetDay now off), 0 ≤ w ∧ w ≤ 6 := by
    intro w hw
    rcases hds with hds | ⟨l, hl, hlb⟩
    · subst hds
      simp only [weeklyDayList] at hw
      rw [List.mem_singleton] at hw
      subst hw
      exact ⟨(jsGetDay_bounds now off).1, by
        have := (jsGetDay_bounds now off).2
        omega⟩
    · subst hl
      simp only [weeklyDayList] at hw
      by_cases hlen : l.length > 0
      · rw [if_pos hlen] at hw
        exact hlb w hw
      · rw [if_neg hlen, List.mem_singleton] at hw
        subst hw
        exact ⟨(jsGetDay_bounds now off).1, by
          have := (jsGetDay_bounds now off).2
          omega⟩
  obtain ⟨r, hr, hc1, hc2, hc3, hc4, hc5⟩ := weeklyNext_spec off now
    (parseTimeParts tstr).1 (parseTimeParts tstr).2 (weeklyDayList ds (jsGetDay now off))
    (weeklyDayList_ne_nil ds (jsGetDay now off)) hdays hT1 hT2
  refine ⟨⟨r, ?_, hc1, hc2, hc3, hc4, hc5⟩, rfl, ?_⟩
  · rw [hcomp]
    exact hr
  · intro l hl
    simp only [weeklyDayList]
    rw [if_neg (by omega)]

/-- Witness for C6: WEEKLY 09:00 on Mondays and Fridays (days `[1, 5]`) at
2025-04-10T00:00Z (a Thursday) on a UTC server. -/
theorem claim_C6_witness :
    (∃ r, computeNextOccurrence (ScheduleVal.obj none (some "WEEKLY") (some "09:00")
        (some [1, 5]) none none) "UTC" 0 1744243200000 = some r ∧
      (1744243200000 : Int) < r ∧
      jsGetDay r 0 ∈ weeklyDayList (some [1, 5]) (jsGetDay 1744243200000 0) ∧
      todOf r 0 = (parseTimeParts "09:00").1 * msHour
        + (parseTimeParts "09:00").2 * msMin ∧
      (∀ w ∈ weeklyDayList (some [1, 5]) (jsGetDay 1744243200000 0),
        r ≤ weeklyCandidate 0 1744243200000 (parseTimeParts "09:00").1
          (parseTimeParts "09:00").2 w) ∧
      (∀ x, (1744243200000 : Int) < x →
        jsGetDay x 0 ∈ weeklyDayList (some [1, 5]) (jsGetDay 1744243200000 0) →
        todOf x 0 = (parseTimeParts "09:00").1 * msHour
          + (parseTimeParts "09:00").2 * msMin →
        r ≤ x)) ∧
    weeklyDayList none (jsGetDay 1744243200000 0) = [jsGetDay 1744243200000 0] ∧
    (∀ l : List Int, l.length = 0 →
      weeklyDayList (some l) (jsGetDay 1744243200000 0) = [jsGetDay 1744243200000 0]) :=
  claim_C6_weekly_soonest "09:00" (by decide) (some [1, 5]) none none "UTC" 0
    1744243200000 (Or.inr ⟨[1, 5], rfl, by decide⟩) (by decide) (by decide)

/-! ## Claim C9: alarm recurrence rollover -/

/-- The fixed-step rollover loop advances by whole periods until strictly
future, and stops at the first such multiple. -/
theorem advanceLoop_spec (stepMs now : Int) (hs : 0 < stepMs) (t : Int) :
    now < advanceLoop stepMs now t ∧
    ∃ k : Nat, advanceLoop stepMs now t = t + k * stepMs ∧
      ∀ j : Nat, j < k → t + j * stepMs ≤ now := by
  induction t using advanceLoop.induct stepMs now with
  | case1 x h ih =>
    obtain ⟨ih1, k, ihe, ihb⟩ := ih
    have heq : advanceLoop stepMs now x = advanceLoop stepMs now (x + stepMs) := by
      conv_lhs => rw [advanceLoop]
      rw [dif_pos h]
    rw [heq]
    refine ⟨ih1, k + 1, ?_, ?_⟩
    · rw [ihe]
      push_cast
      ring
    · intro j hj
      cases j with
      | zero =>
        simpa using h.2
      | succ j' =>
        have hb := ihb j' (by omega)
        have h2 : x + ((j' : Int) + 1) * stepMs = x + stepMs + (j' : Int) * stepMs := by
          ring
        push_cast
        linarith [hb, h2]
  | case2 x h =>
    have heq : advanceLoop stepMs now x = x := by
      conv_lhs => rw [advanceLoop]
      rw [dif_neg h]
    rw [heq]
    refine ⟨?_, 0, by simp, ?_⟩
    · rcases not_and_or.mp h with h1 | h2
      · exact absurd hs h1
      · omega
    · intro j hj
      exact absurd hj (Nat.not_lt_zero j)

/-- The calendar-month rollover loop iterates `setMonth(getMonth() + 1)`
until strictly future, and stops at the first such iterate. -/
theorem advanceMonthlyLoop_spec (off now t : Int) :
    now < advanceMonthlyLoop off now t ∧
    ∃ k : Nat, advanceMonthlyLoop off now t = (fun x => jsAddOneMonth x off)^[k] t ∧
      ∀ j : Nat, j < k → (fun x => jsAddOneMonth x off)^[j] t ≤ now := by
  induction t using advanceMonthlyLoop.induct off now with
  | case1 x h ih =>
    obtain ⟨ih1, k, ihe, ihb⟩ := ih
    have heq : advanceMonthlyLoop off now x =
        advanceMonthlyLoop off now (jsAddOneMonth x off) := by
      conv_lhs => rw [advanceMonthlyLoop]
      rw [if_pos h]
    rw [heq]
    refine ⟨ih1, k + 1, ?_, ?_⟩
    · rw [ihe, Function.iterate_succ_apply]
    · intro j hj
      cases j with
      | zero =>
        simpa using h
      | succ j' =>
        rw [Function.iterate_succ_apply]
        exact ihb j' (by omega)
  | case2 x h =>
    have heq : advanceMonthlyLoop off now x = x := by
      conv_lhs => rw [advanceMonthlyLoop]
      rw [if_neg h]
    rw [heq]
    refine ⟨by omega, 0, by simp, ?_⟩
    intro j hj
    exact absurd hj (Nat.not_lt_zero j)

/-- A string with a non-empty prefix is non-empty. -/
theorem jsStartsWith_ne_empty (s p : String) (c : Char) (cs : List Char)
    (hp : p.toList = c :: cs) (h : jsStartsWith s p = true) : s ≠ "" := by
  intro hs
  subst hs
  unfold jsStartsWith at h
  rw [hp] at h
  have h2 : (c :: cs).isPrefixOf ("".toList) = false := rfl
  rw [h2] at h
  exact Bool.noConfusion h

/-- A rule field whose `|| ''` default has a non-empty prefix is truthy. -/
theorem strTruthy_of_startsWith (r : Option String) (p : String) (c : Char)
    (cs : List Char) (hp : p.toList = c :: cs)
    (h : jsStartsWith (r.getD "") p = true) : strTruthy r = true := by
  cases r with
  | none => exact absurd rfl (jsStartsWith_ne_empty "" p c cs hp h)
  | some s =>
    have hne : s ≠ "" := jsStartsWith_ne_empty s p c cs hp h
    unfold strTruthy
    exact decide_eq_true hne

/-- On an enabled alarm with a valid time, `scheduleAlarmPushNotification`
reduces to the rolled-time dispatch (definitional unfolding). -/
theorem scheduleAlarm_enabled_step (store : List NotificationRec)
    (id uid title : String) (rule : Option String) (T0 off now : Int) :
    scheduleAlarmPushNotification store ⟨id, uid, title, some T0, rule, true⟩ off now =
      (match alarmRolledTime off now T0 rule with
        | none => ⟨cancelAlarmPushNotifications store id uid, none, []⟩
        | some t =>
          if t < now - 1000 then
            ⟨cancelAlarmPushNotifications store id uid, none, []⟩
          else
            match scheduleNotification t now with
            | .ok job =>
              ⟨cancelAlarmPushNotifications store id uid ++ [⟨uid, some id, "PENDING"⟩],
                some t, [job]⟩
            | .error _ =>
              ⟨cancelAlarmPushNotifications
                (cancelAlarmPushNotifications store id uid ++ [⟨uid, some id, "PENDING"⟩])
                id uid, none, []⟩) := rfl

/-- C9: for an enabled alarm whose time `T0` is ≤ now, a recurrence rule
starting with FREQ=DAILY / FREQ=WEEKLY / FREQ=MONTHLY advances the scheduled
time by whole periods (+1 day / +7 days / +1 calendar month, looped) until the
first strictly-future multiple, stores a pending notification and enqueues
exactly one notification job at that instant; with no matching rule,
scheduling is refused (cancel, nothing stored, no job) whenever the time is
more than 1 second in the past. -/
theorem claim_C9_alarm_rollover (store : List NotificationRec)
    (id uid title : String) (rule : Option String) (T0 off now : Int)
    (hle : T0 ≤ now) :
    (jsStartsWith (rule.getD "") "FREQ=DAILY" = true →
      ∃ k : Nat, advanceLoop msDay now T0 = T0 + k * msDay ∧
        now < T0 + k * msDay ∧ (∀ j : Nat, j < k → T0 + j * msDay ≤ now) ∧
        scheduleAlarmPushNotification store ⟨id, uid, title, some T0, rule, true⟩ off now =
          ⟨cancelAlarmPushNotifications store id uid ++ [⟨uid, some id, "PENDING"⟩],
            some (T0 + k * msDay),
            [⟨"notifications", "send-notification", T0 + k * msDay - now⟩]⟩) ∧
    (jsStartsWith (rule.getD "") "FREQ=DAILY" = false →
      jsStartsWith (rule.getD "") "FREQ=WEEKLY" = true →
      ∃ k : Nat, advanceLoop msWeek now T0 = T0 + k * msWeek ∧
        now < T0 + k * msWeek ∧ (∀ j : Nat, j < k → T0 + j * msWeek ≤ now) ∧
        scheduleAlarmPushNotification store ⟨id, uid, title, some T0, rule, true⟩ off now =
          ⟨cancelAlarmPushNotifications store id uid ++ [⟨uid, some id, "PENDING"⟩],
            some (T0 + k * msWeek),
            [⟨"notifications", "send-notification", T0 + k * msWeek - now⟩]⟩) ∧
    (jsStartsWith (rule.getD "") "FREQ=DAILY" = false →
      jsStartsWith (rule.getD "") "FREQ=WEEKLY" = false →
      jsStartsWith (rule.getD "") "FREQ=MONTHLY" = true →
      ∃ k : Nat, advanceMonthlyLoop off now T0 = (fun x => jsAddOneMonth x off)^[k] T0 ∧
        now < advanceMonthlyLoop off now T0 ∧
        (∀ j : Nat, j < k → (fun x => jsAddOneMonth x off)^[j] T0 ≤ now) ∧
        scheduleAlarmPushNotification store ⟨id, uid, title, some T0, rule, true⟩ off now =
          ⟨cancelAlarmPushNotifications store id uid ++ [⟨uid, some id, "PENDING"⟩],
            some (advanceMonthlyLoop off now T0),
            [⟨"notifications", "send-notification",
              advanceMonthlyLoop off now T0 - now⟩]⟩) ∧
    (jsStartsWith (rule.getD "") "FREQ=DAILY" = false →
      jsStartsWith (rule.getD "") "FREQ=WEEKLY" = false →
      jsStartsWith (rule.getD "") "FREQ=MONTHLY" = false →
      T0 < now - 1000 →
      scheduleAlarmPushNotification store ⟨id, uid, title, some T0, rule, true⟩ off now =
        ⟨cancelAlarmPushNotifications store id uid, none, []⟩) := by
  refine ⟨?_, ?_, ?_, ?_⟩
  · intro hd
    have hst : strTruthy rule = true :=
      strTruthy_of_startsWith rule "FREQ=DAILY" 'F' "REQ=DAILY".toList rfl hd
    have hroll : alarmRolledTime off now T0 rule = some (advanceLoop msDay now T0) := by
      unfold alarmRolledTime
      rw [if_pos (show (strTruthy rule && decide (T0 ≤ now)) = true by
        rw [hst]
        simp [hle])]
      rw [if_pos hd]
    obtain ⟨hgt, k, hke, hkb⟩ := advanceLoop_spec msDay now (by unfold msDay; norm_num) T0
    refine ⟨k, hke, ?_, hkb, ?_⟩
    · rw [← hke]
      exact hgt
    · have hok : scheduleNotification (advanceLoop msDay now T0) now =
          Except.ok ⟨"notifications", "send-notification",
            advanceLoop msDay now T0 - now⟩ := by
        unfold scheduleNotification
        rw [if_neg (show ¬(advanceLoop msDay now T0 - now ≤ 0) from by omega)]
      rw [scheduleAlarm_enabled_step, hroll]
      dsimp only
      rw [if_neg (show ¬(advanceLoop msDay now T0 < now - 1000) from by omega), hok, hke]
  · intro hnd hw
    have hst : strTruthy rule = true :=
      strTruthy_of_startsWith rule "FREQ=WEEKLY" 'F' "REQ=WEEKLY".toList rfl hw
    have hroll : alarmRolledTime off now T0 rule = some (advanceLoop msWeek now T0) := by
      unfold alarmRolledTime
      rw [if_pos (show (strTruthy rule && decide (T0 ≤ now)) = true by
        rw [hst]
        simp [hle])]
      rw [if_neg (show ¬jsStartsWith (rule.getD "") "FREQ=DAILY" = true from by
        rw [hnd]
        simp)]
      rw [if_pos hw]
    obtain ⟨hgt, k, hke, hkb⟩ := advanceLoop_spec msWeek now (by unfold msWeek; norm_num) T0
    refine ⟨k, hke, ?_, hkb, ?_⟩
    · rw [← hke]
      exact hgt
    · have hok : scheduleNotification (advanceLoop msWeek now T0) now =
          Except.ok ⟨"notifications", "send-notification",
            advanceLoop msWeek now T0 - now⟩ := by
        unfold scheduleNotification
        rw [if_neg (show ¬(advanceLoop msWeek now T0 - now ≤ 0) from by omega)]
      rw [scheduleAlarm_enabled_step, hroll]
      dsimp only
      rw [if_neg (show ¬(advanceLoop msWeek now T0 < now - 1000) from by omega), hok, hke]
  · intro hnd hnw hm
    have hst : strTruthy rule = true :=
      strTruthy_of_startsWith rule "FREQ=MONTHLY" 'F' "REQ=MONTHLY".toList rfl hm
    have hroll : alarmRolledTime off now T0 rule =
        some (advanceMonthlyLoop off now T0) := by
      unfold alarmRolledTime
      rw [if_pos (show (strTruthy rule && decide (T0 ≤ now)) = true by
        rw [hst]
        simp [hle])]
      rw [if_neg (show ¬jsStartsWith (rule.getD "") "FREQ=DAILY" = true from by
        rw [hnd]
        simp)]
      rw [if_neg (show ¬jsStartsWith (rule.getD "") "FREQ=WEEKLY" = true from by
        rw [hnw]
        simp)]
      rw [if_pos hm]
    obtain ⟨hgt, k, hke, hkb⟩ := advanceMonthlyLoop_spec off now T0
    refine ⟨k, hke, hgt, hkb, ?_⟩
    have hok : scheduleNotification (advanceMonthlyLoop off now T0) now =
        Except.ok ⟨"notifications", "send-notification",
          advanceMonthlyLoop off now T0 - now⟩ := by
      unfold scheduleNotification
      rw [if_neg (show ¬(advanceMonthlyLoop off now T0 - now ≤ 0) from by omega)]
    rw [scheduleAlarm_enabled_step, hroll]
    dsimp only
    rw [if_neg (show ¬(advanceMonthlyLoop off now T0 < now - 1000) from by omega), hok]
  · intro hnd hnw hnm hpast
    by_cases hst : strTruthy rule = true
    · have hroll : alarmRolledTime off now T0 rule = none := by
        unfold alarmRolledTime
        rw [if_pos (show (strTruthy rule && decide (T0 ≤ now)) = true by
          rw [hst]
          simp [hle])]
        rw [if_neg (show ¬jsStartsWith (rule.getD "") "FREQ=DAILY" = true from by
          rw [hnd]
          simp)]
        rw [if_neg (show ¬jsStartsWith (rule.getD "") "FREQ=WEEKLY" = true from by
          rw [hnw]
          simp)]
        rw [if_neg (show ¬jsStartsWith (rule.getD "") "FREQ=MONTHLY" = true from by
          rw [hnm]
          simp)]
        rw [if_pos hpast]
      rw [scheduleAlarm_enabled_step, hroll]
    · have hroll : alarmRolledTime off now T0 rule = some T0 := by
        unfold alarmRolledTime
        rw [if_neg (show ¬(strTruthy rule && decide (T0 ≤ now)) = true from by
          intro hco
          rw [Bool.and_eq_true] at hco
          exact hst hco.1)]
      rw [scheduleAlarm_enabled_step, hroll]
      dsimp only
      rw [if_pos hpast]

/-- Witness for C9: an enabled FREQ=DAILY alarm 500 ms in the past at
`now = 500` on a UTC server, with an empty notification store. -/
theorem claim_C9_witness :
    (0 : Int) ≤ 500 ∧
    ((jsStartsWith "FREQ=DAILY" "FREQ=DAILY" = true →
      ∃ k : Nat, advanceLoop msDay 500 0 = 0 + k * msDay ∧
        (500 : Int) < 0 + k * msDay ∧ (∀ j : Nat, j < k → (0 : Int) + j * msDay ≤ 500) ∧
        scheduleAlarmPushNotification [] ⟨"a1", "u1", "T", some 0, some "FREQ=DAILY",
            true⟩ 0 500 =
          ⟨cancelAlarmPushNotifications [] "a1" "u1" ++ [⟨"u1", some "a1", "PENDING"⟩],
            some (0 + k * msDay),
            [⟨"notifications", "send-notification", 0 + k * msDay - 500⟩]⟩) ∧
    (jsStartsWith "FREQ=DAILY" "FREQ=DAILY" = false →
      jsStartsWith "FREQ=DAILY" "FREQ=WEEKLY" = true →
      ∃ k : Nat, advanceLoop msWeek 500 0 = 0 + k * msWeek ∧
        (500 : Int) < 0 + k * msWeek ∧
        (∀ j : Nat, j < k → (0 : Int) + j * msWeek ≤ 500) ∧
        scheduleAlarmPushNotification [] ⟨"a1", "u1", "T", some 0, some "FREQ=DAILY",
            true⟩ 0 500 =
          ⟨cancelAlarmPushNotifications [] "a1" "u1" ++ [⟨"u1", some "a1", "PENDING"⟩],
            some (0 + k * msWeek),
            [⟨"notifications", "send-notification", 0 + k * msWeek - 500⟩]⟩) ∧
    (jsStartsWith "FREQ=DAILY" "FREQ=DAILY" = false →
      jsStartsWith "FREQ=DAILY" "FREQ=WEEKLY" = false →
      jsStartsWith "FREQ=DAILY" "FREQ=MONTHLY" = true →
      ∃ k : Nat, advanceMonthlyLoop 0 500 0 = (fun x => jsAddOneMonth x 0)^[k] 0 ∧
        (500 : Int) < advanceMonthlyLoop 0 500 0 ∧
        (∀ j : Nat, j < k → (fun x => jsAddOneMonth x 0)^[j] 0 ≤ 500) ∧
        scheduleAlarmPushNotification [] ⟨"a1", "u1", "T", some 0, some "FREQ=DAILY",
            true⟩ 0 500 =
          ⟨cancelAlarmPushNotifications [] "a1" "u1" ++ [⟨"u1", some "a1", "PENDING"⟩],
            some (advanceMonthlyLoop 0 500 0),
            [⟨"notifications", "send-notification", advanceMonthlyLoop 0 500 0 - 500⟩]⟩) ∧
    (jsStartsWith "FREQ=DAILY" "FREQ=DAILY" = false →
      jsStartsWith "FREQ=DAILY" "FREQ=WEEKLY" = false →
      jsStartsWith "FREQ=DAILY" "FREQ=MONTHLY" = false →
      (0 : Int) < 500 - 1000 →
      scheduleAlarmPushNotification [] ⟨"a1", "u1", "T", some 0, some "FREQ=DAILY",
          true⟩ 0 500 =
        ⟨cancelAlarmPushNotifications [] "a1" "u1", none, []⟩)) :=
  ⟨by decide,
    claim_C9_alarm_rollover [] "a1" "u1" "T" (some "FREQ=DAILY") 0 0 500 (by decide)⟩

end ManageTime
